import Mathlib

/-!
# minerMovie backend: a shallow embedding of `src/backend/src/index.js`

The backend keeps three SQLite tables (rooms, users, movies) and serves four
POST handlers.  Each table is embedded as the list of its rows in rowid order,
together with the AUTOINCREMENT counter SQLite keeps for it.  Every handler is a
function from the store and the request body to the new store and the response.

Values the handlers obtain from `Math.random()` are arguments of the embedded
handlers: the room code and the bearer token as strings, the winner draw as a
rational number.  The draw is multiplied by the number of proposals the way
JavaScript multiplies two Numbers, that is, the exact product is rounded to
the nearest IEEE 754 binary64 value, ties to even, and the result is floored.
The values `Math.random()` can return are the binary64 values in [0, 1), which
`IsBinary64` singles out among the rationals.  A field of a request body is a
string, or an integer for the year, and may be missing.  The `created_at`
column is never read and is left out.
-/

namespace MinerMovie

/-! ## Tables (index.js lines 15-51) -/

/-- Row of the rooms table. -/
structure Room where
  id : Nat
  code : String
  status : String
  winner_movie_id : Option Nat
deriving DecidableEq, Repr

/-- Row of the users table. -/
structure User where
  id : Nat
  name : String
  token : String
  room_id : Nat
  is_host : Int
deriving DecidableEq, Repr

/-- Row of the movies table. -/
structure Movie where
  id : Nat
  title : String
  year : Option Int
  room_id : Nat
  user_id : Nat
deriving DecidableEq, Repr

/-- The database: each table in rowid order, and for each table the largest
rowid ever handed out (the sqlite_sequence entry that AUTOINCREMENT keeps). -/
structure Store where
  rooms : List Room
  users : List User
  movies : List Movie
  roomSeq : Nat
  userSeq : Nat
  movieSeq : Nat
deriving DecidableEq, Repr

/-- The database right after the three CREATE TABLE statements. -/
def Store.empty : Store := ⟨[], [], [], 0, 0, 0⟩

/-- Rowid chosen by an AUTOINCREMENT insert: one more than the largest rowid
that is or ever was in the table. -/
def nextId (seq : Nat) (ids : List Nat) : Nat :=
  max seq (ids.foldl max 0) + 1

/-! ## Responses -/

/-- Entry of the list returned by POST /movies. -/
structure MovieView where
  id : Nat
  title : String
  year : Option Int
  addedBy : String
deriving DecidableEq, Repr

/-- JSON bodies the handlers send. -/
inductive Body where
  | error (msg : String)
  | roomCreated (roomCode : String) (name : String) (token : String)
  | joined (name : String) (token : String)
  | movies (list : List MovieView)
  | finished (message : String) (id : Nat) (title : String) (year : Option Int)
  | uncaught
deriving DecidableEq, Repr

/-- HTTP response: status code and body. -/
structure Response where
  status : Nat
  body : Body
deriving DecidableEq, Repr

/-- Result of `res.status(code).json(error: msg)`. -/
def fail (code : Nat) (msg : String) : Response := ⟨code, Body.error msg⟩

/-- Result of `res.json(body)`, which answers 200. -/
def ok (body : Body) : Response := ⟨200, body⟩

/-- What Express answers when the handler throws: 500. -/
def uncaught : Response := ⟨500, Body.uncaught⟩

/-! ## Queries -/

/-- JavaScript `!x` for a body field that is a string or is missing. -/
def falsy : Option String → Bool
  | none => true
  | some t => t == ""

/-- `SELECT * FROM users WHERE token = ?` followed by `.get`: the first row. -/
def findUserByToken (s : Store) (token : String) : Option User :=
  s.users.find? (fun u => u.token == token)

/-- `SELECT * FROM rooms WHERE id = ?` followed by `.get`. -/
def findRoomById (s : Store) (id : Nat) : Option Room :=
  s.rooms.find? (fun r => r.id == id)

/-- `SELECT * FROM rooms WHERE code = ?` followed by `.get`. -/
def findRoomByCode (s : Store) (code : String) : Option Room :=
  s.rooms.find? (fun r => r.code == code)

/-- `SELECT * FROM movies WHERE room_id = ?` followed by `.all`. -/
def moviesOfRoom (s : Store) (roomId : Nat) : List Movie :=
  s.movies.filter (fun m => m.room_id == roomId)

/-- The join of lines 152-157: for every movie of the room, in rowid order,
one entry per users row whose id is the user_id of the movie. -/
def movieViews (s : Store) (roomId : Nat) : List MovieView :=
  (moviesOfRoom s roomId).flatMap (fun m =>
    (s.users.filter (fun u => u.id == m.user_id)).map
      (fun u => ⟨m.id, m.title, m.year, u.name⟩))

/-- Nearest integer to `q`, the even one of the two when `q` lies half way. -/
def roundHalfEven (q : ℚ) : Int :=
  if q - ⌊q⌋ < 1 / 2 then ⌊q⌋
  else if 1 / 2 < q - ⌊q⌋ then ⌊q⌋ + 1
  else if ⌊q⌋ % 2 = 0 then ⌊q⌋ else ⌊q⌋ + 1

/-- Binary exponent of the unit in the last place of the binary64 values
around `x`: 52 below the exponent of `x` for normal numbers, and -1074 for
the subnormal ones, whose exponent is held at -1022. -/
def ulpExp (x : ℚ) : Int := max (Int.log 2 |x|) (-1022) - 52

/-- IEEE 754 binary64 rounding of an exact value, to nearest and ties to
even: the multiple of the unit in the last place nearest to `x`.  Overflow
is not modelled; the products rounded here stay below the length of a
JavaScript array, which is below 2^32. -/
def round64 (x : ℚ) : ℚ := (roundHalfEven (x / 2 ^ ulpExp x) : ℚ) * 2 ^ ulpExp x

/-- The rational `r` is a binary64 value: a significand below 2^53 times a
power of two within the exponent range. -/
def IsBinary64 (r : ℚ) : Prop :=
  ∃ (m : Nat) (e : Int), m < 2 ^ 53 ∧ -1074 ≤ e ∧ e ≤ 971 ∧ |r| = (m : ℚ) * 2 ^ e

/-- `Math.floor(r * n)` for a draw `r` and a list length `n` (line 189): the
binary64 product of the two Numbers, floored. -/
def drawIndex (r : ℚ) (n : Nat) : Int := ⌊round64 (r * (n : ℚ))⌋

/-- JavaScript `xs[i]` for an integer `i`: undefined outside the list. -/
def elemAt {α : Type} (xs : List α) (i : Int) : Option α :=
  if 0 ≤ i then xs.get? i.toNat else none

/-- `UPDATE rooms SET status = finished, winner_movie_id = ? WHERE id = ?`. -/
def setWinner (rooms : List Room) (roomId : Nat) (winnerId : Nat) : List Room :=
  rooms.map (fun r =>
    if r.id == roomId then
      { r with status := "finished", winner_movie_id := some winnerId }
    else r)

/-! ## Handlers -/

/-- POST /rooms (lines 56-86).  `roomCode` and `token` are the two strings
derived from `Math.random()`; the comment on line 62 speaks of four
characters, but `substring(2, 6)` yields fewer for a short expansion, so any
string is allowed here.  A code already in the table violates the UNIQUE
constraint, the insert throws and nothing is written. -/
def createRoom (s : Store) (hostName : Option String) (roomCode token : String) :
    Store × Response :=
  match hostName with
  | none => (s, fail 400 "hostName é obrigatório")
  | some name =>
    if name == "" then (s, fail 400 "hostName é obrigatório")
    else if s.rooms.any (fun r => r.code == roomCode) then (s, uncaught)
    else
      let roomId := nextId s.roomSeq (s.rooms.map Room.id)
      let userId := nextId s.userSeq (s.users.map User.id)
      ({ s with
          rooms := s.rooms ++ [⟨roomId, roomCode, "open", none⟩]
          roomSeq := roomId
          users := s.users ++ [⟨userId, name, token, roomId, 1⟩]
          userSeq := userId },
        ok (Body.roomCreated roomCode name token))

/-- POST /rooms/join (lines 91-120).  `token` is the string derived from
`Math.random()`. -/
def joinRoom (s : Store) (roomCode displayName : Option String) (token : String) :
    Store × Response :=
  if falsy roomCode || falsy displayName then
    (s, fail 400 "roomCode e displayName são obrigatórios")
  else
    match findRoomByCode s (roomCode.getD "") with
    | none => (s, fail 404 "Sala não encontrada")
    | some room =>
      if room.status == "finished" then (s, fail 400 "Sala já foi finalizada")
      else
        let userId := nextId s.userSeq (s.users.map User.id)
        let name := displayName.getD ""
        ({ s with
            users := s.users ++ [⟨userId, name, token, room.id, 0⟩]
            userSeq := userId },
          ok (Body.joined name token))

/-- JavaScript `year || null` for a year that is an integer or is missing. -/
def yearOrNull : Option Int → Option Int
  | some y => if y == 0 then none else some y
  | none => none

/-- POST /movies (lines 125-160). -/
def addMovie (s : Store) (token title : Option String) (year : Option Int) :
    Store × Response :=
  if falsy token || falsy title then
    (s, fail 400 "token e title são obrigatórios")
  else
    match findUserByToken s (token.getD "") with
    | none => (s, fail 401 "Token inválido")
    | some user =>
      match findRoomById s user.room_id with
      | none => (s, fail 404 "Sala não encontrada")
      | some room =>
        if room.status == "finished" then (s, fail 400 "Sala já finalizada")
        else
          let movieId := nextId s.movieSeq (s.movies.map Movie.id)
          let s1 : Store :=
            { s with
                movies := s.movies ++
                  [⟨movieId, title.getD "", yearOrNull year, room.id, user.id⟩]
                movieSeq := movieId }
          (s1, ok (Body.movies (movieViews s1 room.id)))

/-- POST /rooms/finish (lines 166-204).  `draw` is the value of
`Math.random()`.  When the index falls outside the list, `winner` is
undefined and reading `winner.id` throws before the update. -/
def finishRoom (s : Store) (token : Option String) (draw : ℚ) : Store × Response :=
  if falsy token then (s, fail 400 "token é obrigatório")
  else
    match findUserByToken s (token.getD "") with
    | none => (s, fail 401 "Token inválido")
    | some user =>
      if user.is_host != 1 then (s, fail 403 "Apenas o host pode finalizar a sala")
      else
        match findRoomById s user.room_id with
        | none => (s, fail 404 "Sala não encontrada")
        | some room =>
          if room.status == "finished" then (s, fail 400 "Sala já finalizada")
          else
            let movies := moviesOfRoom s room.id
            if movies.length == 0 then (s, fail 400 "Nenhum filme para sortear")
            else
              match elemAt movies (drawIndex draw movies.length) with
              | none => (s, uncaught)
              | some winner =>
                ({ s with rooms := setWinner s.rooms room.id winner.id },
                  ok (Body.finished "Sala finalizada!" winner.id winner.title winner.year))

/-! ## Requests and runs -/

/-- A request to one of the four endpoints, with the random values the
handler draws while serving it. -/
inductive Request where
  | createRoom (hostName : Option String) (roomCode token : String)
  | joinRoom (roomCode displayName : Option String) (token : String)
  | addMovie (token title : Option String) (year : Option Int)
  | finishRoom (token : Option String) (draw : ℚ)

/-- Serve one request. -/
def handle (s : Store) : Request → Store × Response
  | Request.createRoom hostName roomCode token => createRoom s hostName roomCode token
  | Request.joinRoom roomCode displayName token => joinRoom s roomCode displayName token
  | Request.addMovie token title year => addMovie s token title year
  | Request.finishRoom token draw => finishRoom s token draw

/-- Serve a sequence of requests one after the other. -/
def run (s : Store) (reqs : List Request) : Store :=
  reqs.foldl (fun st req => (handle st req).1) s

/-- Store states reachable from `s` by serving requests. -/
def Reachable (s t : Store) : Prop := ∃ reqs : List Request, run s reqs = t

/-- The constraints the schema of lines 15-51 puts on the tables.  The ids are
INTEGER PRIMARY KEY rowids, so each table, read in rowid order, has strictly
increasing ids; room codes are UNIQUE; the room_id of a user and the room_id
and user_id of a movie are FOREIGN KEYs to existing rows. -/
def Store.WF (s : Store) : Prop :=
  (s.rooms.map Room.id).Pairwise (· < ·) ∧
  (s.users.map User.id).Pairwise (· < ·) ∧
  (s.movies.map Movie.id).Pairwise (· < ·) ∧
  (s.rooms.map Room.code).Nodup ∧
  (∀ u ∈ s.users, ∃ r ∈ s.rooms, r.id = u.room_id) ∧
  (∀ m ∈ s.movies,
    (∃ r ∈ s.rooms, r.id = m.room_id) ∧ ∃ u ∈ s.users, u.id = m.user_id)

/-- How an entry of the list returned by POST /movies relates to the movies
row it shows: same id, title and year, and addedBy is the name of the one
users row whose id is the user_id of the movie. -/
def Shows (s : Store) (e : MovieView) (m : Movie) : Prop :=
  e.id = m.id ∧ e.title = m.title ∧ e.year = m.year ∧
    ∃ p : User, s.users.filter (fun q => q.id == m.user_id) = [p] ∧ e.addedBy = p.name

/-- Positions, in the list the winner is drawn from, of the entries proposed
by the user `uid`. -/
def entriesOf (movies : List Movie) (uid : Nat) : Finset Nat :=
  (Finset.range movies.length).filter
    (fun j => (movies[j]?).map Movie.user_id = some uid)

/-- The values of `Math.random()`, binary64 values in [0, 1), for which the
handler selects position `i` of a list of `n` proposals. -/
def drawsFor (n i : Nat) : Set ℚ :=
  {r | IsBinary64 r ∧ 0 ≤ r ∧ r < 1 ∧ drawIndex r n = (i : Int)}

/-- The values of `Math.random()` for which the handler selects an entry
proposed by the user `uid`. -/
def winningDraws (movies : List Movie) (uid : Nat) : Set ℚ :=
  {r | IsBinary64 r ∧ 0 ≤ r ∧ r < 1 ∧
    ∃ m : Movie, elemAt movies (drawIndex r movies.length) = some m ∧ m.user_id = uid}

/-- The room of the user `u`, found through token `token`, is finished with
winner `w`: what a successful finish leaves behind. -/
def Sealed (s : Store) (token : String) (u : User) (w : Nat) : Prop :=
  findUserByToken s token = some u ∧
    ∃ room : Room, findRoomById s u.room_id = some room ∧
      room.status = "finished" ∧ room.winner_movie_id = some w

/-- Every room has a winner exactly when it is finished, and the winner is a
movie of that room. -/
def WinnerInv (s : Store) : Prop :=
  ∀ room ∈ s.rooms,
    (room.winner_movie_id ≠ none ↔ room.status = "finished") ∧
    ∀ w : Nat, room.winner_movie_id = some w →
      ∃ m ∈ s.movies, m.id = w ∧ m.room_id = room.id

/-! ## Concrete stores -/

/-- The scenario of the spec before the finish: Ana hosts room AB12 with
token t1, Bo joins with token t2, Bo proposes Dune and Ana proposes Arrival. -/
def demoStore : Store :=
  run Store.empty
    [Request.createRoom (some "Ana") "AB12" "t1",
     Request.joinRoom (some "AB12") (some "Bo") "t2",
     Request.addMovie (some "t2") (some "Dune") (some 2021),
     Request.addMovie (some "t1") (some "Arrival") none]

/-- Ana, the host of the demo room. -/
def demoHost : User := ⟨1, "Ana", "t1", 1, 1⟩

/-- The demo room while it is open. -/
def demoRoom : Room := ⟨1, "AB12", "open", none⟩

/-- The scenario of the spec after Ana has finished the room with the draw
one half, which selects Arrival. -/
def demoFinished : Store :=
  { demoStore with rooms := [⟨1, "AB12", "finished", some 2⟩] }

/-- A room whose host was issued the empty token (the token generator yields
it when `Math.random()` returns 0), with a proposal by a guest. -/
def emptyHostTokenStore : Store :=
  run Store.empty
    [Request.createRoom (some "Ana") "AB12" "",
     Request.joinRoom (some "AB12") (some "Bo") "t2",
     Request.addMovie (some "t2") (some "Dune") (some 2021)]

/-- A room whose guest was issued the empty token. -/
def emptyGuestTokenStore : Store :=
  run Store.empty
    [Request.createRoom (some "Ana") "AB12" "t1",
     Request.joinRoom (some "AB12") (some "Bo") ""]

/-- A binary64 value just below 4/7 whose product with 7 lies half way
between two binary64 values, the upper one being 4. -/
def tieDraw : ℚ := 2573485501354569 / 2 ^ 52

/-- Ana hosts room AB12 and has proposed seven movies. -/
def sevenStore : Store :=
  run Store.empty
    [Request.createRoom (some "Ana") "AB12" "t1",
     Request.addMovie (some "t1") (some "M1") none,
     Request.addMovie (some "t1") (some "M2") none,
     Request.addMovie (some "t1") (some "M3") none,
     Request.addMovie (some "t1") (some "M4") none,
     Request.addMovie (some "t1") (some "M5") none,
     Request.addMovie (some "t1") (some "M6") none,
     Request.addMovie (some "t1") (some "M7") none]

/-- Only Ana has created her room AB12, with token t1. -/
def oneRoomStore : Store :=
  run Store.empty [Request.createRoom (some "Ana") "AB12" "t1"]

/-! ## Basic facts about the queries -/

theorem find?_append_some {α : Type} (p : α → Bool) (l l2 : List α) (a : α)
    (h : l.find? p = some a) : (l ++ l2).find? p = some a := by
  simp [List.find?_append, h]

theorem find?_append_none {α : Type} (p : α → Bool) (l l2 : List α)
    (h : l.find? p = none) : (l ++ l2).find? p = l2.find? p := by
  simp [List.find?_append, h]

theorem setWinner_find (rooms : List Room) (rid w x : Nat) :
    (setWinner rooms rid w).find? (fun r => r.id == x) =
      (rooms.find? (fun r => r.id == x)).map (fun r =>
        if r.id == rid then
          { r with status := "finished", winner_movie_id := some w }
        else r) := by
  unfold setWinner
  rw [List.find?_map]
  congr 1
  congr 1
  funext r
  simp only [Function.comp]
  split <;> rfl

theorem findRoomById_id (s : Store) (x : Nat) (room : Room)
    (h : findRoomById s x = some room) : room.id = x := by
  have := List.find?_some h
  simpa using this

theorem findRoomById_mem (s : Store) (x : Nat) (room : Room)
    (h : findRoomById s x = some room) : room ∈ s.rooms :=
  List.mem_of_find?_eq_some h

theorem findUserByToken_mem (s : Store) (t : String) (u : User)
    (h : findUserByToken s t = some u) : u ∈ s.users :=
  List.mem_of_find?_eq_some h

theorem foldl_max_ge (ids : List Nat) (a : Nat) :
    a ≤ ids.foldl max a ∧ ∀ x ∈ ids, x ≤ ids.foldl max a := by
  induction ids generalizing a with
  | nil => simp
  | cons y ys ih =>
    simp only [List.foldl_cons, List.mem_cons, forall_eq_or_imp]
    have h := ih (max a y)
    refine ⟨le_trans (le_max_left a y) h.1, le_trans (le_max_right a y) h.1, h.2⟩

theorem lt_nextId (seq : Nat) (ids : List Nat) (x : Nat) (hx : x ∈ ids) :
    x < nextId seq ids := by
  unfold nextId
  have := (foldl_max_ge ids 0).2 x hx
  omega

/-! ## Requests that are refused -/

theorem createRoom_refused (s : Store) (hostName : Option String) (roomCode token : String) :
    (createRoom s hostName roomCode token).1 = s ∨
      (createRoom s hostName roomCode token).2.status = 200 := by
  unfold createRoom
  split
  · exact Or.inl rfl
  · split_ifs
    · exact Or.inl rfl
    · exact Or.inl rfl
    · exact Or.inr rfl

theorem joinRoom_refused (s : Store) (roomCode displayName : Option String) (token : String) :
    (joinRoom s roomCode displayName token).1 = s ∨
      (joinRoom s roomCode displayName token).2.status = 200 := by
  unfold joinRoom
  split_ifs
  · exact Or.inl rfl
  · split
    · exact Or.inl rfl
    · split_ifs
      · exact Or.inl rfl
      · exact Or.inr rfl

theorem addMovie_refused (s : Store) (token title : Option String) (year : Option Int) :
    (addMovie s token title year).1 = s ∨ (addMovie s token title year).2.status = 200 := by
  unfold addMovie
  split_ifs
  · exact Or.inl rfl
  · split
    · exact Or.inl rfl
    · split
      · exact Or.inl rfl
      · split_ifs
        · exact Or.inl rfl
        · exact Or.inr rfl

theorem finishRoom_refused (s : Store) (token : Option String) (draw : ℚ) :
    (finishRoom s token draw).1 = s ∨ (finishRoom s token draw).2.status = 200 := by
  unfold finishRoom
  split_ifs
  · exact Or.inl rfl
  · split
    · exact Or.inl rfl
    · split_ifs
      · exact Or.inl rfl
      · split
        · exact Or.inl rfl
        · split_ifs
          · exact Or.inl rfl
          · dsimp only
            split_ifs
            · exact Or.inl rfl
            · split
              · exact Or.inl rfl
              · exact Or.inr rfl

theorem handle_refused (s : Store) (req : Request) :
    (handle s req).1 = s ∨ (handle s req).2.status = 200 := by
  cases req with
  | createRoom a b c => exact createRoom_refused s a b c
  | joinRoom a b c => exact joinRoom_refused s a b c
  | addMovie a b c => exact addMovie_refused s a b c
  | finishRoom a b => exact finishRoom_refused s a b

/-! ## What each handler does: either nothing, or its one write -/

theorem createRoom_inv (s : Store) (hostName : Option String) (roomCode token : String) :
    ((createRoom s hostName roomCode token).1 = s ∧
        (createRoom s hostName roomCode token).2.status ≠ 200) ∨
      ∃ name : String, hostName = some name ∧ name ≠ "" ∧
        (∀ r ∈ s.rooms, r.code ≠ roomCode) ∧
        createRoom s hostName roomCode token =
          ({ s with
              rooms := s.rooms ++
                [⟨nextId s.roomSeq (s.rooms.map Room.id), roomCode, "open", none⟩]
              roomSeq := nextId s.roomSeq (s.rooms.map Room.id)
              users := s.users ++
                [⟨nextId s.userSeq (s.users.map User.id), name, token,
                  nextId s.roomSeq (s.rooms.map Room.id), 1⟩]
              userSeq := nextId s.userSeq (s.users.map User.id) },
            ok (Body.roomCreated roomCode name token)) := by
  unfold createRoom
  split
  · exact Or.inl ⟨rfl, by simp [fail, uncaught]⟩
  · rename_i name
    split_ifs with h1 h2
    · exact Or.inl ⟨rfl, by simp [fail, uncaught]⟩
    · exact Or.inl ⟨rfl, by simp [fail, uncaught]⟩
    · refine Or.inr ⟨name, rfl, ?_, ?_, rfl⟩
      · simpa using h1
      · simpa using h2

theorem joinRoom_inv (s : Store) (roomCode displayName : Option String) (token : String) :
    ((joinRoom s roomCode displayName token).1 = s ∧
        (joinRoom s roomCode displayName token).2.status ≠ 200) ∨
      ∃ (code name : String) (room : Room), roomCode = some code ∧ code ≠ "" ∧
        displayName = some name ∧ name ≠ "" ∧
        findRoomByCode s code = some room ∧ room.status ≠ "finished" ∧
        joinRoom s roomCode displayName token =
          ({ s with
              users := s.users ++
                [⟨nextId s.userSeq (s.users.map User.id), name, token, room.id, 0⟩]
              userSeq := nextId s.userSeq (s.users.map User.id) },
            ok (Body.joined name token)) := by
  unfold joinRoom
  split_ifs with h1
  · exact Or.inl ⟨rfl, by simp [fail, uncaught]⟩
  · cases roomCode with
    | none => simp [falsy] at h1
    | some code =>
      cases displayName with
      | none => simp [falsy] at h1
      | some name =>
        simp only [falsy, Bool.or_eq_true, beq_iff_eq, not_or] at h1
        simp only [Option.getD_some]
        split
        · exact Or.inl ⟨rfl, by simp [fail, uncaught]⟩
        · rename_i room hroom
          split_ifs with h2
          · exact Or.inl ⟨rfl, by simp [fail, uncaught]⟩
          · refine Or.inr ⟨code, name, room, rfl, h1.1, rfl, h1.2, hroom, ?_, rfl⟩
            simpa using h2

theorem addMovie_inv (s : Store) (token title : Option String) (year : Option Int) :
    ((addMovie s token title year).1 = s ∧ (addMovie s token title year).2.status ≠ 200) ∨
      ∃ (tok ttl : String) (u : User) (room : Room), token = some tok ∧ tok ≠ "" ∧
        title = some ttl ∧ ttl ≠ "" ∧
        findUserByToken s tok = some u ∧ findRoomById s u.room_id = some room ∧
        room.status ≠ "finished" ∧
        (addMovie s token title year).1 =
          { s with
              movies := s.movies ++
                [⟨nextId s.movieSeq (s.movies.map Movie.id), ttl, yearOrNull year,
                  room.id, u.id⟩]
              movieSeq := nextId s.movieSeq (s.movies.map Movie.id) } ∧
        (addMovie s token title year).2 =
          ok (Body.movies (movieViews (addMovie s token title year).1 room.id)) := by
  unfold addMovie
  split_ifs with h1
  · exact Or.inl ⟨rfl, by simp [fail, uncaught]⟩
  · cases token with
    | none => simp [falsy] at h1
    | some tok =>
      cases title with
      | none => simp [falsy] at h1
      | some ttl =>
        simp only [falsy, Bool.or_eq_true, beq_iff_eq, not_or] at h1
        simp only [Option.getD_some]
        split
        · exact Or.inl ⟨rfl, by simp [fail, uncaught]⟩
        · rename_i u hu
          split
          · exact Or.inl ⟨rfl, by simp [fail, uncaught]⟩
          · rename_i room hroom
            split_ifs with h2
            · exact Or.inl ⟨rfl, by simp [fail, uncaught]⟩
            · refine Or.inr ⟨tok, ttl, u, room, rfl, h1.1, rfl, h1.2, hu, hroom, ?_, rfl, rfl⟩
              simpa using h2

theorem finishRoom_inv (s : Store) (token : Option String) (draw : ℚ) :
    ((finishRoom s token draw).1 = s ∧ (finishRoom s token draw).2.status ≠ 200) ∨
      ∃ (tok : String) (u : User) (room : Room) (w : Movie), token = some tok ∧ tok ≠ "" ∧
        findUserByToken s tok = some u ∧ u.is_host = 1 ∧
        findRoomById s u.room_id = some room ∧ room.status ≠ "finished" ∧
        elemAt (moviesOfRoom s room.id)
          (drawIndex draw (moviesOfRoom s room.id).length) = some w ∧
        finishRoom s token draw =
          ({ s with rooms := setWinner s.rooms room.id w.id },
            ok (Body.finished "Sala finalizada!" w.id w.title w.year)) := by
  unfold finishRoom
  split_ifs with h1
  · exact Or.inl ⟨rfl, by simp [fail, uncaught]⟩
  · cases token with
    | none => simp [falsy] at h1
    | some tok =>
      simp only [falsy, beq_iff_eq] at h1
      simp only [Option.getD_some]
      split
      · exact Or.inl ⟨rfl, by simp [fail, uncaught]⟩
      · rename_i u hu
        split_ifs with h2
        · exact Or.inl ⟨rfl, by simp [fail, uncaught]⟩
        · split
          · exact Or.inl ⟨rfl, by simp [fail, uncaught]⟩
          · rename_i room hroom
            split_ifs with h3 h4
            · exact Or.inl ⟨rfl, by simp [fail, uncaught]⟩
            · exact Or.inl ⟨rfl, by simp [fail, uncaught]⟩
            · split
              · exact Or.inl ⟨rfl, by simp [fail, uncaught]⟩
              · rename_i w hw
                refine Or.inr ⟨tok, u, room, w, rfl, h1, hu, ?_, hroom, ?_, hw, rfl⟩
                · simpa using h2
                · simpa using h3

theorem elemAt_mem {α : Type} (xs : List α) (i : Int) (a : α) (h : elemAt xs i = some a) :
    a ∈ xs := by
  unfold elemAt at h
  split_ifs at h
  exact List.get?_mem h

theorem moviesOfRoom_mem (s : Store) (rid : Nat) (m : Movie) (h : m ∈ moviesOfRoom s rid) :
    m ∈ s.movies ∧ m.room_id = rid := by
  unfold moviesOfRoom at h
  simpa using h

/-! ## The draw -/

theorem floor_le_roundHalfEven (q : ℚ) : ⌊q⌋ ≤ roundHalfEven q := by
  unfold roundHalfEven
  split_ifs <;> omega

theorem le_roundHalfEven (q : ℚ) (j : Int) (h : (j : ℚ) ≤ q) : j ≤ roundHalfEven q :=
  le_trans (Int.le_floor.mpr h) (floor_le_roundHalfEven q)

theorem roundHalfEven_sub_le (q : ℚ) : (roundHalfEven q : ℚ) - q ≤ 1 / 2 := by
  have h1 := Int.floor_le q
  have h2 := Int.lt_floor_add_one q
  unfold roundHalfEven
  split_ifs with ha hb hc
  · linarith
  · push_cast
    linarith
  · linarith
  · push_cast
    linarith

theorem ulp_pos (x : ℚ) : (0 : ℚ) < 2 ^ ulpExp x := zpow_pos (by norm_num) _

theorem round64_zero : round64 0 = 0 := by
  unfold round64
  simp [roundHalfEven]

theorem round64_nonneg (x : ℚ) (hx : 0 ≤ x) : 0 ≤ round64 x := by
  unfold round64
  have h : (0 : Int) ≤ roundHalfEven (x / 2 ^ ulpExp x) := by
    apply le_roundHalfEven
    simpa using div_nonneg hx (ulp_pos x).le
  have h2 : (0 : ℚ) ≤ (roundHalfEven (x / 2 ^ ulpExp x) : ℚ) := by exact_mod_cast h
  exact mul_nonneg h2 (ulp_pos x).le

theorem round64_le_add (x : ℚ) : round64 x ≤ x + 2 ^ ulpExp x / 2 := by
  unfold round64
  have h := roundHalfEven_sub_le (x / 2 ^ ulpExp x)
  have hu := ulp_pos x
  have h2 : (roundHalfEven (x / 2 ^ ulpExp x) : ℚ) ≤ x / 2 ^ ulpExp x + 1 / 2 := by linarith
  calc (roundHalfEven (x / 2 ^ ulpExp x) : ℚ) * 2 ^ ulpExp x
      ≤ (x / 2 ^ ulpExp x + 1 / 2) * 2 ^ ulpExp x := mul_le_mul_of_nonneg_right h2 hu.le
    _ = x + 2 ^ ulpExp x / 2 := by
      field_simp
      ring

theorem log_abs_eq (x : ℚ) (b : Int) (h1 : (2 : ℚ) ^ b ≤ |x|) (h2 : |x| < 2 ^ (b + 1)) :
    Int.log 2 |x| = b := by
  have hpos : 0 < |x| := lt_of_lt_of_le (zpow_pos (by norm_num) _) h1
  have ha : b ≤ Int.log 2 |x| := by
    apply (Int.zpow_le_iff_le_log (by norm_num) hpos).mp
    simpa using h1
  have hb : Int.log 2 |x| < b + 1 := by
    apply (Int.lt_zpow_iff_log_lt (by norm_num) hpos).mp
    simpa using h2
  omega

theorem ulpExp_eq (x : ℚ) (b : Int) (hb : -1022 ≤ b) (h1 : (2 : ℚ) ^ b ≤ |x|)
    (h2 : |x| < 2 ^ (b + 1)) : ulpExp x = b - 52 := by
  unfold ulpExp
  rw [log_abs_eq x b h1 h2, max_eq_left hb]

theorem ulpExp_subnormal (x : ℚ) (h0 : x ≠ 0) (h : |x| < 2 ^ (-1022 : Int)) :
    ulpExp x = -1074 := by
  have hpos : 0 < |x| := abs_pos.mpr h0
  have hb : Int.log 2 |x| < -1022 := by
    apply (Int.lt_zpow_iff_log_lt (by norm_num) hpos).mp
    simpa using h
  unfold ulpExp
  rw [max_eq_right hb.le]
  norm_num

theorem ulp_le_of_normal (x : ℚ) (h : (2 : ℚ) ^ (-1022 : Int) ≤ |x|) :
    (2 : ℚ) ^ ulpExp x ≤ |x| * 2 ^ (-52 : Int) := by
  have hpos : 0 < |x| := lt_of_lt_of_le (zpow_pos (by norm_num) _) h
  have hb : (-1022 : Int) ≤ Int.log 2 |x| := by
    apply (Int.zpow_le_iff_le_log (by norm_num) hpos).mp
    simpa using h
  have hl : (2 : ℚ) ^ Int.log 2 |x| ≤ |x| := by
    simpa using Int.zpow_log_le_self (b := 2) (by norm_num) hpos
  unfold ulpExp
  rw [max_eq_left hb, sub_eq_add_neg, zpow_add₀ (by norm_num)]
  exact mul_le_mul_of_nonneg_right hl (zpow_pos (by norm_num) _).le

theorem ulpExp_nonpos (x : ℚ) (h : |x| < 2 ^ (53 : Int)) : ulpExp x ≤ 0 := by
  unfold ulpExp
  by_cases h0 : x = 0
  · subst h0
    simp [Int.log_of_right_le_zero]
  · have hpos : 0 < |x| := abs_pos.mpr h0
    have hb : Int.log 2 |x| < 53 := by
      apply (Int.lt_zpow_iff_log_lt (by norm_num) hpos).mp
      simpa using h
    have : max (Int.log 2 |x|) (-1022) ≤ 52 := max_le (by omega) (by norm_num)
    omega

theorem round64_lt_of (x y : ℚ) (hx : 0 ≤ x) (hy : 1 ≤ y)
    (h : x * (1 + 1 / 2 ^ 53) < y) : round64 x < y := by
  by_cases h0 : x = 0
  · subst h0
    rw [round64_zero]
    linarith
  have habs : |x| = x := abs_of_nonneg hx
  by_cases hn : (2 : ℚ) ^ (-1022 : Int) ≤ |x|
  · have hu := ulp_le_of_normal x hn
    rw [habs] at hu
    have h1 := round64_le_add x
    have h52 : (2 : ℚ) ^ (-52 : Int) = 2 / 2 ^ 53 := by norm_num
    rw [h52] at hu
    have : round64 x ≤ x + x * (2 / 2 ^ 53) / 2 := by linarith
    have e : x + x * (2 / 2 ^ 53) / 2 = x * (1 + 1 / 2 ^ 53) := by ring
    linarith
  · push_neg at hn
    have he := ulpExp_subnormal x h0 hn
    have h1 := round64_le_add x
    rw [he] at h1
    rw [habs] at hn
    have hs : x + (2 : ℚ) ^ (-1074 : Int) / 2 < 1 := by
      have hc : (2 : ℚ) ^ (-1022 : Int) + (2 : ℚ) ^ (-1074 : Int) / 2 < 1 := by norm_num
      exact lt_trans (add_lt_add_right hn _) hc
    exact lt_of_le_of_lt h1 (lt_of_lt_of_le hs hy)

theorem le_round64 (x : ℚ) (i : Nat) (hi : (i : ℚ) ≤ x) (hx : x < 2 ^ 53) :
    (i : ℚ) ≤ round64 x := by
  have hx0 : 0 ≤ x := le_trans (Nat.cast_nonneg i) hi
  have habs : |x| = x := abs_of_nonneg hx0
  have he : ulpExp x ≤ 0 := by
    apply ulpExp_nonpos
    rw [habs]
    exact_mod_cast hx
  obtain ⟨k, hk⟩ : ∃ k : Nat, ulpExp x = -(k : Int) := ⟨(-ulpExp x).toNat, by omega⟩
  have hu := ulp_pos x
  have hpow : (2 : ℚ) ^ ulpExp x = 1 / 2 ^ k := by
    rw [hk, zpow_neg, zpow_natCast]
    simp
  have hj : ((i * 2 ^ k : Int) : ℚ) ≤ x / 2 ^ ulpExp x := by
    rw [hpow]
    push_cast
    rw [div_div_eq_mul_div, div_one]
    exact mul_le_mul_of_nonneg_right hi (by positivity)
  have hr := le_roundHalfEven _ _ hj
  have hr2 : ((i * 2 ^ k : Int) : ℚ) ≤ (roundHalfEven (x / 2 ^ ulpExp x) : ℚ) := by
    exact_mod_cast hr
  unfold round64
  calc (i : ℚ) = ((i * 2 ^ k : Int) : ℚ) * 2 ^ ulpExp x := by
        rw [hpow]
        push_cast
        field_simp
    _ ≤ (roundHalfEven (x / 2 ^ ulpExp x) : ℚ) * 2 ^ ulpExp x :=
        mul_le_mul_of_nonneg_right hr2 hu.le

theorem binary64_lt_one (r : ℚ) (hd : IsBinary64 r) (h0 : 0 ≤ r) (h1 : r < 1) :
    r ≤ 1 - 1 / 2 ^ 53 := by
  obtain ⟨m, e, hm, _, _, hr⟩ := hd
  rw [abs_of_nonneg h0] at hr
  by_cases he : -53 ≤ e
  · obtain ⟨k, hk⟩ : ∃ k : Nat, e + 53 = (k : Int) := ⟨(e + 53).toNat, by omega⟩
    have hmul : r * 2 ^ 53 = ((m * 2 ^ k : Nat) : ℚ) := by
      rw [hr]
      push_cast
      rw [← zpow_natCast (2 : ℚ) k, ← hk, zpow_add₀ (by norm_num)]
      norm_num
      ring
    have hlt : ((m * 2 ^ k : Nat) : ℚ) < ((2 ^ 53 : Nat) : ℚ) := by
      rw [← hmul]
      push_cast
      have : r * 2 ^ 53 < 1 * 2 ^ 53 := mul_lt_mul_of_pos_right h1 (by positivity)
      linarith
    have hlt2 : m * 2 ^ k < 2 ^ 53 := by exact_mod_cast hlt
    have hle : m * 2 ^ k + 1 ≤ 2 ^ 53 := hlt2
    have hle2 : ((m * 2 ^ k : Nat) : ℚ) + 1 ≤ 2 ^ 53 := by exact_mod_cast hle
    rw [← hmul] at hle2
    have hp : (0 : ℚ) < 2 ^ 53 := by positivity
    rw [le_sub_iff_add_le, ← mul_le_mul_right hp]
    rw [add_mul]
    simpa using hle2
  · push_neg at he
    have h54 : (2 : ℚ) ^ e ≤ 2 ^ (-54 : Int) := zpow_le_zpow_right₀ (by norm_num) (by omega)
    have hm2 : (m : ℚ) ≤ 2 ^ 53 := by exact_mod_cast hm.le
    have : r ≤ 2 ^ 53 * 2 ^ (-54 : Int) := by
      rw [hr]
      exact mul_le_mul hm2 h54 (zpow_pos (by norm_num) _).le (by positivity)
    have e2 : (2 : ℚ) ^ 53 * 2 ^ (-54 : Int) = 1 / 2 := by norm_num
    rw [e2] at this
    have : (1 : ℚ) / 2 ≤ 1 - 1 / 2 ^ 53 := by norm_num
    linarith

theorem drawIndex_bounds (r : ℚ) (n : Nat) (hn : 0 < n) (hd : IsBinary64 r)
    (h0 : 0 ≤ r) (h1 : r < 1) : 0 ≤ drawIndex r n ∧ drawIndex r n < (n : Int) := by
  have hpos : (1 : ℚ) ≤ (n : ℚ) := by exact_mod_cast hn
  have hr := binary64_lt_one r hd h0 h1
  unfold drawIndex
  constructor
  · exact Int.floor_nonneg.mpr (round64_nonneg _ (mul_nonneg h0 (by linarith)))
  · rw [Int.floor_lt]
    push_cast
    apply round64_lt_of _ _ (mul_nonneg h0 (by linarith)) hpos
    have h2 : r * n ≤ (1 - 1 / 2 ^ 53) * n := mul_le_mul_of_nonneg_right hr (by linarith)
    have h3 : (1 - 1 / 2 ^ 53 : ℚ) * n * (1 + 1 / 2 ^ 53) < n := by
      have : (1 - 1 / 2 ^ 53 : ℚ) * (1 + 1 / 2 ^ 53) < 1 := by norm_num
      nlinarith
    have h4 : r * n * (1 + 1 / 2 ^ 53) ≤ (1 - 1 / 2 ^ 53 : ℚ) * n * (1 + 1 / 2 ^ 53) :=
      mul_le_mul_of_nonneg_right h2 (by norm_num)
    linarith

theorem drawIndex_eq_of_mem (r : ℚ) (n i : Nat) (hn : n < 2 ^ 32) (hi : i < n)
    (h1 : (i : ℚ) / n ≤ r) (h2 : r < ((i : ℚ) + 1) / ((n : ℚ) * (1 + 1 / 2 ^ 53))) :
    drawIndex r n = (i : Int) := by
  have hnpos : (0 : ℚ) < (n : ℚ) := by
    have : 0 < n := by omega
    exact_mod_cast this
  have hpos : (0 : ℚ) < (n : ℚ) * (1 + 1 / 2 ^ 53) := by positivity
  have ha : (i : ℚ) ≤ r * n := (div_le_iff₀ hnpos).mp h1
  have hb : r * n * (1 + 1 / 2 ^ 53) < (i : ℚ) + 1 := by
    have := (lt_div_iff₀ hpos).mp h2
    linarith
  have hin : (i : ℚ) + 1 ≤ (n : ℚ) := by exact_mod_cast hi
  have hn2 : (n : ℚ) < 2 ^ 32 := by exact_mod_cast hn
  have hx0 : (0 : ℚ) ≤ r * n := le_trans (Nat.cast_nonneg i) ha
  have hx : r * n < 2 ^ 53 := by
    have : r * n ≤ r * n * (1 + 1 / 2 ^ 53) := by
      have : (0 : ℚ) ≤ r * n * (1 / 2 ^ 53) := mul_nonneg hx0 (by positivity)
      linarith
    have h32 : (2 : ℚ) ^ 32 < 2 ^ 53 := by norm_num
    linarith
  unfold drawIndex
  rw [Int.floor_eq_iff]
  push_cast
  exact ⟨le_round64 _ i ha hx,
    round64_lt_of _ _ hx0 (by linarith [Nat.cast_nonneg (α := ℚ) i]) hb⟩

theorem mem_of_drawIndex_eq (r : ℚ) (n i : Nat) (hn0 : 0 < n) (hn : n < 2 ^ 32)
    (h0 : 0 ≤ r) (h1 : r < 1) (h : drawIndex r n = (i : Int)) :
    (i : ℚ) / ((n : ℚ) * (1 + 1 / 2 ^ 53)) ≤ r ∧ r < ((i : ℚ) + 1) / n := by
  have hnpos : (0 : ℚ) < (n : ℚ) := by exact_mod_cast hn0
  have hpos : (0 : ℚ) < (n : ℚ) * (1 + 1 / 2 ^ 53) := by positivity
  have hn2 : (n : ℚ) < 2 ^ 32 := by exact_mod_cast hn
  have hx0 : (0 : ℚ) ≤ r * n := mul_nonneg h0 hnpos.le
  have hx : r * n < 2 ^ 53 := by
    have : r * n < 1 * n := mul_lt_mul_of_pos_right h1 hnpos
    have h32 : (2 : ℚ) ^ 32 < 2 ^ 53 := by norm_num
    linarith
  unfold drawIndex at h
  rw [Int.floor_eq_iff] at h
  push_cast at h
  obtain ⟨hlo, hhi⟩ := h
  constructor
  · rw [div_le_iff₀ hpos]
    by_contra hc
    push_neg at hc
    have hi1 : 1 ≤ i := by
      by_contra h00
      have : i = 0 := by omega
      subst this
      simp only [Nat.cast_zero] at hc
      have : (0 : ℚ) ≤ r * (n * (1 + 1 / 2 ^ 53)) := mul_nonneg h0 hpos.le
      linarith
    have hi2 : (1 : ℚ) ≤ (i : ℚ) := by exact_mod_cast hi1
    have := round64_lt_of (r * n) i hx0 hi2 (by linarith)
    linarith
  · rw [lt_div_iff₀ hnpos]
    by_contra hc
    push_neg at hc
    have := le_round64 (r * n) (i + 1) (by push_cast; exact hc) hx
    push_cast at this
    linarith

theorem exists_draw (n i : Nat) (hn : n < 2 ^ 32) (hi : i < n) :
    ∃ r : ℚ, IsBinary64 r ∧ (i : ℚ) / n ≤ r ∧
      r < ((i : ℚ) + 1) / ((n : ℚ) * (1 + 1 / 2 ^ 53)) ∧ 0 ≤ r ∧ r < 1 := by
  have hnpos : (0 : ℚ) < (n : ℚ) := by
    have : 0 < n := by omega
    exact_mod_cast this
  have hpos : (0 : ℚ) < (n : ℚ) * (1 + 1 / 2 ^ 53) := by positivity
  have hin : (i : ℚ) + 1 ≤ (n : ℚ) := by exact_mod_cast hi
  have hn2 : (n : ℚ) < 2 ^ 32 := by exact_mod_cast hn
  have hi0 : (0 : ℚ) ≤ (i : ℚ) := Nat.cast_nonneg i
  have hq0 : (0 : ℚ) ≤ (i : ℚ) * 2 ^ 53 / n := by positivity
  have hc1 : (i : ℚ) * 2 ^ 53 / n ≤ (⌈(i : ℚ) * 2 ^ 53 / n⌉₊ : ℚ) := Nat.le_ceil _
  have hc2 : (⌈(i : ℚ) * 2 ^ 53 / n⌉₊ : ℚ) < (i : ℚ) * 2 ^ 53 / n + 1 :=
    Nat.ceil_lt_add_one hq0
  have hlo : (i : ℚ) / n ≤ (⌈(i : ℚ) * 2 ^ 53 / n⌉₊ : ℚ) / 2 ^ 53 := by
    rw [le_div_iff₀ (by positivity)]
    have : (i : ℚ) / n * 2 ^ 53 = (i : ℚ) * 2 ^ 53 / n := by ring
    rw [this]
    exact hc1
  have hup : (⌈(i : ℚ) * 2 ^ 53 / n⌉₊ : ℚ) / 2 ^ 53 < (i : ℚ) / n + 1 / 2 ^ 53 := by
    rw [div_lt_iff₀ (by positivity)]
    have : ((i : ℚ) / n + 1 / 2 ^ 53) * 2 ^ 53 = (i : ℚ) * 2 ^ 53 / n + 1 := by
      field_simp
      ring
    rw [this]
    exact hc2
  have hkey : (i : ℚ) / n + 1 / 2 ^ 53 ≤ ((i : ℚ) + 1) / ((n : ℚ) * (1 + 1 / 2 ^ 53)) := by
    rw [le_div_iff₀ hpos]
    have : ((i : ℚ) / n + 1 / 2 ^ 53) * ((n : ℚ) * (1 + 1 / 2 ^ 53))
        = ((i : ℚ) + n * (1 / 2 ^ 53)) * (1 + 1 / 2 ^ 53) := by
      field_simp
      ring
    rw [this]
    linarith
  have hlt : (⌈(i : ℚ) * 2 ^ 53 / n⌉₊ : ℚ) / 2 ^ 53
      < ((i : ℚ) + 1) / ((n : ℚ) * (1 + 1 / 2 ^ 53)) := lt_of_lt_of_le hup hkey
  have hle1 : ((i : ℚ) + 1) / ((n : ℚ) * (1 + 1 / 2 ^ 53)) ≤ 1 := by
    rw [div_le_one hpos]
    have : (0 : ℚ) ≤ (n : ℚ) * (1 / 2 ^ 53) := by positivity
    linarith
  have hr1 : (⌈(i : ℚ) * 2 ^ 53 / n⌉₊ : ℚ) / 2 ^ 53 < 1 := lt_of_lt_of_le hlt hle1
  have hr0 : (0 : ℚ) ≤ (⌈(i : ℚ) * 2 ^ 53 / n⌉₊ : ℚ) / 2 ^ 53 := by positivity
  refine ⟨(⌈(i : ℚ) * 2 ^ 53 / n⌉₊ : ℚ) / 2 ^ 53, ?_, hlo, hlt, hr0, hr1⟩
  refine ⟨⌈(i : ℚ) * 2 ^ 53 / n⌉₊, -53, ?_, by norm_num, by norm_num, ?_⟩
  · have : (⌈(i : ℚ) * 2 ^ 53 / n⌉₊ : ℚ) < ((2 ^ 53 : Nat) : ℚ) := by
      push_cast
      rw [div_lt_one (by positivity)] at hr1
      exact hr1
    exact_mod_cast this
  · rw [abs_of_nonneg hr0, zpow_neg, div_eq_mul_inv]
    norm_num

theorem roundHalfEven_tie_odd (f : Int) (hodd : f % 2 = 1) :
    roundHalfEven ((f : ℚ) + 1 / 2) = f + 1 := by
  have hf : ⌊(f : ℚ) + 1 / 2⌋ = f := by
    rw [Int.floor_eq_iff]
    constructor <;> linarith
  unfold roundHalfEven
  rw [hf]
  have h1 : ¬ ((f : ℚ) + 1 / 2 - f < 1 / 2) := by
    simp
  have h2 : ¬ ((1 : ℚ) / 2 < (f : ℚ) + 1 / 2 - f) := by
    simp
  have h3 : ¬ (f % 2 = 0) := by omega
  rw [if_neg h1, if_neg h2, if_neg h3]

theorem elemAt_of_bounds {α : Type} (xs : List α) (i : Int) (h0 : 0 ≤ i)
    (h1 : i < (xs.length : Int)) : ∃ a : α, elemAt xs i = some a := by
  unfold elemAt
  rw [if_pos h0]
  have h : i.toNat < xs.length := by omega
  exact ⟨xs.get ⟨i.toNat, h⟩, List.get?_eq_get h⟩

theorem finishRoom_ok (s : Store) (token : String) (draw : ℚ) (u : User) (room : Room)
    (w : Movie) (htoken : token ≠ "") (hu : findUserByToken s token = some u)
    (hhost : u.is_host = 1) (hroom : findRoomById s u.room_id = some room)
    (hopen : room.status ≠ "finished")
    (hw : elemAt (moviesOfRoom s room.id)
      (drawIndex draw (moviesOfRoom s room.id).length) = some w) :
    finishRoom s (some token) draw =
      ({ s with rooms := setWinner s.rooms room.id w.id },
        ok (Body.finished "Sala finalizada!" w.id w.title w.year)) := by
  have hne : moviesOfRoom s room.id ≠ [] := by
    intro h
    have hm := elemAt_mem _ _ _ hw
    rw [h] at hm
    simp at hm
  unfold finishRoom
  simp [falsy, htoken, hu, hhost, hroom, hopen, hne, hw]

theorem findRoomById_setWinner_same (s : Store) (room : Room) (w : Nat)
    (hroom : findRoomById s room.id = some room) :
    findRoomById { s with rooms := setWinner s.rooms room.id w } room.id =
      some { room with status := "finished", winner_movie_id := some w } := by
  unfold findRoomById at *
  simp only [setWinner_find, hroom, Option.map_some', beq_self_eq_true, if_true]

theorem findRoomById_setWinner_other (s : Store) (rid x w : Nat) (room : Room)
    (hroom : findRoomById s x = some room) (hne : x ≠ rid) :
    findRoomById { s with rooms := setWinner s.rooms rid w } x = some room := by
  have hid := findRoomById_id s x room hroom
  unfold findRoomById at *
  simp only [setWinner_find, hroom, Option.map_some']
  have : (room.id == rid) = false := by
    rw [hid]
    simpa using hne
  simp [this]

/-! ## Runs -/

theorem run_cons (s : Store) (req : Request) (reqs : List Request) :
    run s (req :: reqs) = run (handle s req).1 reqs := rfl

theorem run_invariant (P : Store → Prop)
    (hstep : ∀ (s : Store) (req : Request), P s → P (handle s req).1)
    (s : Store) (reqs : List Request) (h : P s) : P (run s reqs) := by
  induction reqs generalizing s with
  | nil => exact h
  | cons req reqs ih =>
    rw [run_cons]
    exact ih _ (hstep s req h)

/-! ## A finished room stays finished -/

theorem sealed_handle (token : String) (u : User) (w : Nat) (s : Store) (req : Request)
    (h : Sealed s token u w) : Sealed (handle s req).1 token u w := by
  obtain ⟨hu, room, hroom, hfin, hwin⟩ := h
  cases req with
  | createRoom hostName roomCode tok =>
    rcases createRoom_inv s hostName roomCode tok with h | ⟨name, _, _, _, heq⟩
    · simp only [handle, h.1]
      exact ⟨hu, room, hroom, hfin, hwin⟩
    · simp only [handle, heq]
      exact ⟨find?_append_some _ _ _ _ hu, room, find?_append_some _ _ _ _ hroom,
        hfin, hwin⟩
  | joinRoom roomCode displayName tok =>
    rcases joinRoom_inv s roomCode displayName tok with
      h | ⟨code, name, room2, _, _, _, _, _, _, heq⟩
    · simp only [handle, h.1]
      exact ⟨hu, room, hroom, hfin, hwin⟩
    · simp only [handle, heq]
      exact ⟨find?_append_some _ _ _ _ hu, room, hroom, hfin, hwin⟩
  | addMovie tok title year =>
    rcases addMovie_inv s tok title year with
      h | ⟨tk, ttl, u2, room2, _, _, _, _, _, _, _, heq, _⟩
    · simp only [handle, h.1]
      exact ⟨hu, room, hroom, hfin, hwin⟩
    · simp only [handle, heq]
      exact ⟨hu, room, hroom, hfin, hwin⟩
  | finishRoom tok draw =>
    rcases finishRoom_inv s tok draw with
      h | ⟨tk, u2, room2, w2, _, _, _, _, hroom2, hopen2, _, heq⟩
    · simp only [handle, h.1]
      exact ⟨hu, room, hroom, hfin, hwin⟩
    · simp only [handle, heq]
      have hid2 := findRoomById_id s u2.room_id room2 hroom2
      have hne : u.room_id ≠ room2.id := by
        intro he
        rw [hid2] at he
        rw [he, hroom2] at hroom
        cases hroom
        exact hopen2 hfin
      exact ⟨hu, room, findRoomById_setWinner_other s room2.id u.room_id w2.id room
        hroom hne, hfin, hwin⟩

theorem sealed_finishRoom (s : Store) (token : String) (u : User) (w : Nat) (draw : ℚ)
    (htoken : token ≠ "") (hhost : u.is_host = 1) (h : Sealed s token u w) :
    finishRoom s (some token) draw = (s, fail 400 "Sala já finalizada") := by
  obtain ⟨hu, room, hroom, hfin, _⟩ := h
  unfold finishRoom
  simp [falsy, htoken, hu, hhost, hroom, hfin]

/-! ## The winner invariant -/

theorem winnerInv_empty : WinnerInv Store.empty := by
  intro room hroom
  simp [Store.empty] at hroom

theorem winnerInv_handle (s : Store) (req : Request) (h : WinnerInv s) :
    WinnerInv (handle s req).1 := by
  cases req with
  | createRoom hostName roomCode tok =>
    rcases createRoom_inv s hostName roomCode tok with h1 | ⟨name, _, _, _, heq⟩
    · simp only [handle, h1.1]
      exact h
    · simp only [handle, heq]
      intro room hroom
      simp only [List.mem_append, List.mem_singleton] at hroom
      rcases hroom with hroom | hroom
      · exact h room hroom
      · subst hroom
        simp
  | joinRoom roomCode displayName tok =>
    rcases joinRoom_inv s roomCode displayName tok with
      h1 | ⟨code, name, room2, _, _, _, _, _, _, heq⟩
    · simp only [handle, h1.1]
      exact h
    · simp only [handle, heq]
      exact h
  | addMovie tok title year =>
    rcases addMovie_inv s tok title year with
      h1 | ⟨tk, ttl, u2, room2, _, _, _, _, _, _, _, heq, _⟩
    · simp only [handle, h1.1]
      exact h
    · simp only [handle, heq]
      intro room hroom
      refine ⟨(h room hroom).1, ?_⟩
      intro w hw
      obtain ⟨m, hm, hmw⟩ := (h room hroom).2 w hw
      exact ⟨m, List.mem_append_left _ hm, hmw⟩
  | finishRoom tok draw =>
    rcases finishRoom_inv s tok draw with
      h1 | ⟨tk, u2, room2, w2, _, _, _, _, hroom2, _, hw2, heq⟩
    · simp only [handle, h1.1]
      exact h
    · simp only [handle, heq]
      have hmem := moviesOfRoom_mem s room2.id w2 (elemAt_mem _ _ _ hw2)
      intro room hroom
      simp only [setWinner, List.mem_map] at hroom
      obtain ⟨r0, hr0, hr⟩ := hroom
      by_cases hc : (r0.id == room2.id) = true
      · rw [if_pos hc] at hr
        subst hr
        simp only [beq_iff_eq] at hc
        refine ⟨by simp, ?_⟩
        intro w hw
        simp only [Option.some.injEq] at hw
        subst hw
        exact ⟨w2, hmem.1, rfl, by rw [hmem.2, hc]⟩
      · rw [if_neg hc] at hr
        subst hr
        exact h r0 hr0

/-! ## The schema constraints hold in every run -/

theorem pairwise_lt_append_nextId (seq : Nat) (ids : List Nat)
    (h : ids.Pairwise (· < ·)) : (ids ++ [nextId seq ids]).Pairwise (· < ·) := by
  rw [List.pairwise_append]
  refine ⟨h, List.pairwise_singleton _ _, ?_⟩
  intro a ha b hb
  simp only [List.mem_singleton] at hb
  subst hb
  exact lt_nextId seq ids a ha

theorem setWinner_ids (rooms : List Room) (rid w : Nat) :
    (setWinner rooms rid w).map Room.id = rooms.map Room.id := by
  unfold setWinner
  rw [List.map_map]
  apply List.map_congr_left
  intro r _
  simp only [Function.comp]
  split <;> rfl

theorem setWinner_codes (rooms : List Room) (rid w : Nat) :
    (setWinner rooms rid w).map Room.code = rooms.map Room.code := by
  unfold setWinner
  rw [List.map_map]
  apply List.map_congr_left
  intro r _
  simp only [Function.comp]
  split <;> rfl

theorem setWinner_has_id (rooms : List Room) (rid w x : Nat)
    (h : ∃ r ∈ rooms, r.id = x) : ∃ r ∈ setWinner rooms rid w, r.id = x := by
  have h1 : x ∈ rooms.map Room.id := by
    obtain ⟨r, hr, hx⟩ := h
    exact List.mem_map.mpr ⟨r, hr, hx⟩
  rw [← setWinner_ids rooms rid w] at h1
  obtain ⟨r, hr, hx⟩ := List.mem_map.mp h1
  exact ⟨r, hr, hx⟩

theorem wf_empty : Store.empty.WF := by
  simp [Store.WF, Store.empty]

theorem wf_handle (s : Store) (req : Request) (h : s.WF) : (handle s req).1.WF := by
  obtain ⟨hr, hu, hm, hc, hfu, hfm⟩ := h
  cases req with
  | createRoom hostName roomCode tok =>
    rcases createRoom_inv s hostName roomCode tok with h1 | ⟨name, _, _, hclash, heq⟩
    · simp only [handle, h1.1]
      exact ⟨hr, hu, hm, hc, hfu, hfm⟩
    · simp only [handle, heq, Store.WF, List.map_append, List.map_cons, List.map_nil]
      refine ⟨pairwise_lt_append_nextId _ _ hr, pairwise_lt_append_nextId _ _ hu, hm,
        ?_, ?_, ?_⟩
      · rw [List.nodup_append]
        refine ⟨hc, List.nodup_singleton _, ?_⟩
        intro c hc1 hc2
        simp only [List.mem_singleton] at hc2
        subst hc2
        obtain ⟨r, hr1, hr2⟩ := List.mem_map.mp hc1
        exact hclash r hr1 hr2
      · intro u hu1
        simp only [List.mem_append, List.mem_singleton] at hu1
        rcases hu1 with hu1 | hu1
        · obtain ⟨r, hr1, hr2⟩ := hfu u hu1
          exact ⟨r, List.mem_append_left _ hr1, hr2⟩
        · subst hu1
          exact ⟨_, List.mem_append_right _ (List.mem_singleton_self _), rfl⟩
      · intro m hm1
        obtain ⟨⟨r, hr1, hr2⟩, ⟨u, hu1, hu2⟩⟩ := hfm m hm1
        exact ⟨⟨r, List.mem_append_left _ hr1, hr2⟩, ⟨u, List.mem_append_left _ hu1, hu2⟩⟩
  | joinRoom roomCode displayName tok =>
    rcases joinRoom_inv s roomCode displayName tok with
      h1 | ⟨code, name, room, _, _, _, _, hroom, _, heq⟩
    · simp only [handle, h1.1]
      exact ⟨hr, hu, hm, hc, hfu, hfm⟩
    · simp only [handle, heq, Store.WF, List.map_append, List.map_cons, List.map_nil]
      refine ⟨hr, pairwise_lt_append_nextId _ _ hu, hm, hc, ?_, ?_⟩
      · intro u hu1
        simp only [List.mem_append, List.mem_singleton] at hu1
        rcases hu1 with hu1 | hu1
        · exact hfu u hu1
        · subst hu1
          exact ⟨room, List.mem_of_find?_eq_some hroom, rfl⟩
      · intro m hm1
        obtain ⟨hroom1, ⟨u, hu1, hu2⟩⟩ := hfm m hm1
        exact ⟨hroom1, ⟨u, List.mem_append_left _ hu1, hu2⟩⟩
  | addMovie tok title year =>
    rcases addMovie_inv s tok title year with
      h1 | ⟨tk, ttl, u, room, _, _, _, _, hu1, hroom, _, heq, _⟩
    · simp only [handle, h1.1]
      exact ⟨hr, hu, hm, hc, hfu, hfm⟩
    · simp only [handle, heq, Store.WF, List.map_append, List.map_cons, List.map_nil]
      refine ⟨hr, hu, pairwise_lt_append_nextId _ _ hm, hc, hfu, ?_⟩
      intro m hm1
      simp only [List.mem_append, List.mem_singleton] at hm1
      rcases hm1 with hm1 | hm1
      · exact hfm m hm1
      · subst hm1
        exact ⟨⟨room, findRoomById_mem s _ room hroom, rfl⟩,
          ⟨u, findUserByToken_mem s tk u hu1, rfl⟩⟩
  | finishRoom tok draw =>
    rcases finishRoom_inv s tok draw with
      h1 | ⟨tk, u, room, w, _, _, _, _, _, _, _, heq⟩
    · simp only [handle, h1.1]
      exact ⟨hr, hu, hm, hc, hfu, hfm⟩
    · simp only [handle, heq, Store.WF, setWinner_ids, setWinner_codes]
      refine ⟨hr, hu, hm, hc, ?_, ?_⟩
      · intro u1 hu1
        exact setWinner_has_id _ _ _ _ (hfu u1 hu1)
      · intro m hm1
        exact ⟨setWinner_has_id _ _ _ _ (hfm m hm1).1, (hfm m hm1).2⟩

theorem wf_reachable (s : Store) (h : Reachable Store.empty s) : s.WF := by
  obtain ⟨reqs, hrun⟩ := h
  rw [← hrun]
  exact run_invariant Store.WF wf_handle Store.empty reqs wf_empty

/-! ## The join of POST /movies -/

theorem users_filter_unique (users : List User) (p : User)
    (hpw : (users.map User.id).Pairwise (· < ·)) (hp : p ∈ users) :
    users.filter (fun q => q.id == p.id) = [p] := by
  induction users with
  | nil => simp at hp
  | cons a l ih =>
    simp only [List.map_cons, List.pairwise_cons, List.mem_map, forall_exists_index,
      and_imp, forall_apply_eq_imp_iff₂] at hpw
    obtain ⟨hlt, hl⟩ := hpw
    simp only [List.mem_cons] at hp
    rcases hp with hp | hp
    · subst hp
      have hnil : l.filter (fun q => q.id == p.id) = [] := by
        rw [List.filter_eq_nil_iff]
        intro q hq
        have := hlt q hq
        simp only [beq_iff_eq]
        omega
      simp [List.filter_cons, hnil]
    · have hne : (a.id == p.id) = false := by
        have := hlt p hp
        simp only [beq_eq_false_iff_ne]
        omega
      rw [List.filter_cons, hne]
      simpa using ih hl hp

theorem views_show (s : Store) (ms : List Movie)
    (hpw : (s.users.map User.id).Pairwise (· < ·))
    (hfk : ∀ m ∈ ms, ∃ u ∈ s.users, u.id = m.user_id) :
    List.Forall₂ (Shows s)
      (ms.flatMap (fun m =>
        (s.users.filter (fun u => u.id == m.user_id)).map
          (fun u => (⟨m.id, m.title, m.year, u.name⟩ : MovieView))))
      ms := by
  induction ms with
  | nil => exact List.Forall₂.nil
  | cons m ms ih =>
    obtain ⟨u, hu, hid⟩ := hfk m (List.mem_cons_self _ _)
    have hf : s.users.filter (fun q => q.id == m.user_id) = [u] := by
      rw [← hid]
      exact users_filter_unique s.users u hpw hu
    rw [List.flatMap_cons, hf]
    simp only [List.map_cons, List.map_nil, List.singleton_append]
    refine List.Forall₂.cons ⟨rfl, rfl, rfl, u, hf, rfl⟩ ?_
    exact ih (fun m1 hm1 => hfk m1 (List.mem_cons_of_mem _ hm1))

theorem forall₂_shows_ids (s : Store) (es : List MovieView) (ms : List Movie)
    (h : List.Forall₂ (Shows s) es ms) : es.map MovieView.id = ms.map Movie.id := by
  induction h with
  | nil => rfl
  | cons hd _ ih =>
    simp only [List.map_cons, ih, hd.1]

/-! ## The demo scenario -/

theorem demoFinish_eq :
    finishRoom demoStore (some "t1") (1 / 2) =
      (demoFinished, ⟨200, Body.finished "Sala finalizada!" 2 "Arrival" none⟩) := by
  have h := finishRoom_ok demoStore "t1" (1 / 2) demoHost demoRoom
    ⟨2, "Arrival", none, 1, 1⟩ (by decide) (by decide) (by decide) (by decide) (by decide)
    (by
      have hi : drawIndex (1 / 2 : ℚ) (moviesOfRoom demoStore demoRoom.id).length
          = ((1 : Nat) : Int) := by
        have hl : (moviesOfRoom demoStore demoRoom.id).length = 2 := by decide
        rw [hl]
        exact drawIndex_eq_of_mem (1 / 2) 2 1 (by norm_num) (by norm_num) (by norm_num)
          (by norm_num)
      rw [hi]
      decide)
  rw [h]
  decide

theorem demoFinished_reachable : Reachable Store.empty demoFinished := by
  refine ⟨[Request.createRoom (some "Ana") "AB12" "t1",
     Request.joinRoom (some "AB12") (some "Bo") "t2",
     Request.addMovie (some "t2") (some "Dune") (some 2021),
     Request.addMovie (some "t1") (some "Arrival") none,
     Request.finishRoom (some "t1") (1 / 2)], ?_⟩
  have h : run Store.empty [Request.createRoom (some "Ana") "AB12" "t1",
     Request.joinRoom (some "AB12") (some "Bo") "t2",
     Request.addMovie (some "t2") (some "Dune") (some 2021),
     Request.addMovie (some "t1") (some "Arrival") none,
     Request.finishRoom (some "t1") (1 / 2)]
      = (finishRoom demoStore (some "t1") (1 / 2)).1 := rfl
  rw [h, demoFinish_eq]

/-! ## Which draws select which entry -/

theorem elemAt_natCast {β : Type} (xs : List β) (j : Nat) : elemAt xs (j : Int) = xs[j]? := by
  unfold elemAt
  simp

theorem mem_entriesOf (movies : List Movie) (uid j : Nat) :
    j ∈ entriesOf movies uid ↔ ∃ m : Movie, movies[j]? = some m ∧ m.user_id = uid := by
  unfold entriesOf
  simp only [Finset.mem_filter, Finset.mem_range, Option.map_eq_some']
  constructor
  · rintro ⟨_, h⟩
    exact h
  · rintro ⟨m, hm, hu⟩
    refine ⟨?_, m, hm, hu⟩
    by_contra hlt
    rw [List.getElem?_eq_none (by omega)] at hm
    cases hm

theorem winningDraws_eq_iUnion (movies : List Movie) (uid : Nat) :
    winningDraws movies uid = ⋃ j ∈ entriesOf movies uid, drawsFor movies.length j := by
  ext r
  simp only [winningDraws, drawsFor, Set.mem_setOf_eq, Set.mem_iUnion, exists_prop]
  constructor
  · rintro ⟨hb64, h0, h1, m, hm, hu⟩
    have hmem := elemAt_mem _ _ _ hm
    have hlen : 0 < movies.length := List.length_pos_of_mem hmem
    have hb := drawIndex_bounds r movies.length hlen hb64 h0 h1
    have hcast : ((drawIndex r movies.length).toNat : Int) = drawIndex r movies.length :=
      Int.toNat_of_nonneg hb.1
    refine ⟨(drawIndex r movies.length).toNat, ?_, hb64, h0, h1, hcast.symm⟩
    rw [mem_entriesOf]
    refine ⟨m, ?_, hu⟩
    rw [← elemAt_natCast, hcast]
    exact hm
  · rintro ⟨j, hj, hb64, h0, h1, hd⟩
    rw [mem_entriesOf] at hj
    obtain ⟨m, hm, hu⟩ := hj
    refine ⟨hb64, h0, h1, m, ?_, hu⟩
    rw [hd, elemAt_natCast]
    exact hm

theorem card_entriesOf (movies : List Movie) (uid : Nat) :
    (entriesOf movies uid).card = movies.countP (fun m => m.user_id == uid) := by
  induction movies using List.reverseRecOn with
  | nil => simp [entriesOf]
  | append_singleton l a ih =>
    have hfilter : entriesOf (l ++ [a]) uid =
        if a.user_id = uid then insert l.length (entriesOf l uid) else entriesOf l uid := by
      ext j
      by_cases hj : j < l.length
      · have h1 : (l ++ [a])[j]? = l[j]? := List.getElem?_append_left hj
        have h2 : j ≠ l.length := by omega
        split_ifs <;> simp [mem_entriesOf, h1, h2]
      · by_cases hj2 : j = l.length
        · subst hj2
          have h1 : (l ++ [a])[l.length]? = some a := by simp
          have h3 : l[l.length]? = none := by simp
          split_ifs with hc <;> simp [mem_entriesOf, h1, h3, hc]
        · have h1 : (l ++ [a])[j]? = none := by
            rw [List.getElem?_eq_none]
            simp
            omega
          have h3 : l[j]? = none := by
            rw [List.getElem?_eq_none]
            omega
          split_ifs <;> simp [mem_entriesOf, h1, h3, hj2]
    have hnot : l.length ∉ entriesOf l uid := by
      rw [mem_entriesOf]
      simp
    rw [hfilter, List.countP_append]
    split_ifs with hc
    · rw [Finset.card_insert_of_not_mem hnot, ih]
      simp [List.countP_cons, hc]
    · rw [ih]
      simp [List.countP_cons, hc]

theorem inner_length_bound (n i : Nat) (hi : i < n) :
    (1 : ℚ) / n - 1 / 2 ^ 53
      ≤ ((i : ℚ) + 1) / ((n : ℚ) * (1 + 1 / 2 ^ 53)) - (i : ℚ) / n := by
  have hnpos : (0 : ℚ) < (n : ℚ) := by
    have : 0 < n := by omega
    exact_mod_cast this
  have hin : (i : ℚ) + 1 ≤ (n : ℚ) := by exact_mod_cast hi
  have ht1 : ((i : ℚ) + 1) / n ≤ 1 := (div_le_one hnpos).mpr hin
  have ht0 : (0 : ℚ) ≤ ((i : ℚ) + 1) / n := by positivity
  have e1 : ((i : ℚ) + 1) / ((n : ℚ) * (1 + 1 / 2 ^ 53))
      = ((i : ℚ) + 1) / n * (9007199254740992 / 9007199254740993) := by
    field_simp
    ring
  have e2 : (1 : ℚ) / n = ((i : ℚ) + 1) / n - (i : ℚ) / n := by
    field_simp
  rw [e1, e2]
  norm_num
  linarith

theorem outer_length_bound (n i : Nat) (hi : i < n) :
    ((i : ℚ) + 1) / n - (i : ℚ) / ((n : ℚ) * (1 + 1 / 2 ^ 53))
      ≤ (1 : ℚ) / n + 1 / 2 ^ 53 := by
  have hnpos : (0 : ℚ) < (n : ℚ) := by
    have : 0 < n := by omega
    exact_mod_cast this
  have hin : (i : ℚ) ≤ (n : ℚ) := by exact_mod_cast hi.le
  have ht1 : (i : ℚ) / n ≤ 1 := (div_le_one hnpos).mpr hin
  have ht0 : (0 : ℚ) ≤ (i : ℚ) / n := by positivity
  have e1 : (i : ℚ) / ((n : ℚ) * (1 + 1 / 2 ^ 53))
      = (i : ℚ) / n * (9007199254740992 / 9007199254740993) := by
    field_simp
    ring
  have e2 : (1 : ℚ) / n = ((i : ℚ) + 1) / n - (i : ℚ) / n := by
    field_simp
  rw [e1, e2]
  norm_num
  linarith

/-! ## Concrete draws -/

theorem tieDraw_index : drawIndex tieDraw 7 = 4 := by
  unfold tieDraw
  have hx : (2573485501354569 / 2 ^ 52 : ℚ) * ((7 : Nat) : ℚ)
      = 18014398509481983 / 4503599627370496 := by norm_num
  have he : ulpExp (18014398509481983 / 4503599627370496) = 1 - 52 := by
    apply ulpExp_eq
    · norm_num
    · rw [abs_of_nonneg (by norm_num)]
      norm_num
    · rw [abs_of_nonneg (by norm_num)]
      norm_num
  have hq : (18014398509481983 / 4503599627370496 : ℚ) / 2 ^ ((1 : Int) - 52)
      = ((9007199254740991 : Int) : ℚ) + 1 / 2 := by norm_num
  have hr : round64 (18014398509481983 / 4503599627370496) = 4 := by
    unfold round64
    rw [he, hq, roundHalfEven_tie_odd _ (by decide)]
    norm_num
  unfold drawIndex
  rw [hx, hr]
  simp

theorem isBinary64_tie : IsBinary64 tieDraw :=
  ⟨2573485501354569, -52, by norm_num, by norm_num, by norm_num, by
    unfold tieDraw
    rw [abs_of_nonneg (by norm_num)]
    norm_num⟩

theorem sevenStore_finish :
    finishRoom sevenStore (some "t1") tieDraw =
      ({ sevenStore with rooms := setWinner sevenStore.rooms 1 5 },
        ⟨200, Body.finished "Sala finalizada!" 5 "M5" none⟩) := by
  have h := finishRoom_ok sevenStore "t1" tieDraw ⟨1, "Ana", "t1", 1, 1⟩
    ⟨1, "AB12", "open", none⟩ ⟨5, "M5", none, 1, 1⟩
    (by decide) (by decide) (by decide) (by decide) (by decide)
    (by
      have hl : (moviesOfRoom sevenStore 1).length = 7 := by decide
      have hl2 : (moviesOfRoom sevenStore (⟨1, "AB12", "open", none⟩ : Room).id).length
          = 7 := hl
      rw [hl2, tieDraw_index]
      decide)
  rw [h]
  rfl

/-! ## Refused requests: C5, C6, C7, C8 -/

/-- C5: a request answered with 400, 401, 403 or 404 leaves the rooms, users
and movies tables (and the id counters) as they were.  In particular an add
movie with an unknown token is refused and changes nothing, an add movie into
a finished room is refused with 400 and changes nothing, and a finish room by
a user who is not the host changes nothing. -/
theorem rejected_requests_change_nothing (s : Store) :
    (∀ req : Request, (handle s req).2.status ∈ [400, 401, 403, 404] →
      (handle s req).1 = s) ∧
    (∀ (token title : Option String) (year : Option Int),
      findUserByToken s (token.getD "") = none →
      (addMovie s token title year).1 = s ∧
        (addMovie s token title year).2.status ∈ [400, 401]) ∧
    (∀ (token title : Option String) (year : Option Int) (u : User) (room : Room),
      findUserByToken s (token.getD "") = some u →
      findRoomById s u.room_id = some room → room.status = "finished" →
      (addMovie s token title year).1 = s ∧
        (addMovie s token title year).2.status = 400) ∧
    (∀ (token : Option String) (draw : ℚ) (u : User),
      findUserByToken s (token.getD "") = some u → u.is_host ≠ 1 →
      (finishRoom s token draw).1 = s) := by
  refine ⟨?_, ?_, ?_, ?_⟩
  · intro req h
    rcases handle_refused s req with h1 | h1
    · exact h1
    · rw [h1] at h
      simp at h
  · intro token title year h
    unfold addMovie
    split_ifs
    · simp [fail]
    · simp [h, fail]
  · intro token title year u room hu hr hfin
    unfold addMovie
    split_ifs
    · simp [fail]
    · simp [hu, hr, hfin, fail]
  · intro token draw u hu hhost
    unfold finishRoom
    split_ifs
    · rfl
    · simp [hu, hhost]

/-- Witness for C5: joining the finished demo room is refused with 400 and the
store is unchanged. -/
theorem rejected_requests_change_nothing_witness :
    (handle demoFinished (Request.joinRoom (some "AB12") (some "Cy") "t3")).2.status
        ∈ [400, 401, 403, 404] ∧
      (handle demoFinished (Request.joinRoom (some "AB12") (some "Cy") "t3")).1
        = demoFinished :=
  ⟨by decide,
    (rejected_requests_change_nothing demoFinished).1
      (Request.joinRoom (some "AB12") (some "Cy") "t3") (by decide)⟩

/-- C6 (as stated) fails: with a token that matches no users row and a missing
title, POST /movies answers the 400 validation error, not 401. -/
theorem addMovie_unknown_token_missing_title :
    findUserByToken Store.empty "zz" = none ∧
      (addMovie Store.empty (some "zz") none (some 2021)).2
        = fail 400 "token e title são obrigatórios" ∧
      (addMovie Store.empty (some "zz") none (some 2021)).2
        ≠ fail 401 "Token inválido" := by
  decide

/-- C6 (amended): when the token and the title are both non-empty strings and
the token matches no users row, POST /movies answers 401 with the message
Token inválido, whatever the year, and the store is unchanged. -/
theorem addMovie_unknown_token (s : Store) (token title : String) (year : Option Int)
    (htoken : token ≠ "") (htitle : title ≠ "")
    (hunknown : findUserByToken s token = none) :
    addMovie s (some token) (some title) year = (s, fail 401 "Token inválido") := by
  unfold addMovie
  simp [falsy, htoken, htitle, hunknown]

/-- Witness for C6 (amended), on the demo store. -/
theorem addMovie_unknown_token_witness :
    "zz" ≠ "" ∧ "Heat" ≠ "" ∧ findUserByToken demoStore "zz" = none ∧
      addMovie demoStore (some "zz") (some "Heat") (some 1995)
        = (demoStore, fail 401 "Token inválido") :=
  ⟨by decide, by decide, by decide,
    addMovie_unknown_token demoStore "zz" "Heat" (some 1995)
      (by decide) (by decide) (by decide)⟩

/-- C7 (as stated) fails: a guest who was issued the empty token resolves to
a users row with is_host 0, yet POST /rooms/finish with that token answers the
400 validation error, not 403. -/
theorem finishRoom_empty_guest_token :
    findUserByToken emptyGuestTokenStore "" = some ⟨2, "Bo", "", 1, 0⟩ ∧
      (finishRoom emptyGuestTokenStore (some "") 0).2
        = fail 400 "token é obrigatório" ∧
      (finishRoom emptyGuestTokenStore (some "") 0).2.status ≠ 403 := by
  decide

/-- C7 (amended): when the token resolves to a user whose is_host is not 1,
POST /rooms/finish changes nothing in the store, whatever the state of the
room, and it answers 403 when the token is not the empty string (the empty
string is refused with the 400 validation error before the lookup). -/
theorem finishRoom_non_host (s : Store) (token : String) (draw : ℚ) (u : User)
    (hu : findUserByToken s token = some u) (hhost : u.is_host ≠ 1) :
    (finishRoom s (some token) draw).1 = s ∧
      (finishRoom s (some token) draw).2 =
        if token = "" then fail 400 "token é obrigatório"
        else fail 403 "Apenas o host pode finalizar a sala" := by
  unfold finishRoom
  by_cases h : token = ""
  · simp [falsy, h]
  · simp [falsy, h, hu, hhost]

/-- Witness for C7 (amended): Bo, a guest of the demo room. -/
theorem finishRoom_non_host_witness :
    findUserByToken demoStore "t2" = some ⟨2, "Bo", "t2", 1, 0⟩ ∧
      (0 : Int) ≠ 1 ∧
      (finishRoom demoStore (some "t2") (1 / 2)).1 = demoStore ∧
      (finishRoom demoStore (some "t2") (1 / 2)).2 =
        if "t2" = "" then fail 400 "token é obrigatório"
        else fail 403 "Apenas o host pode finalizar a sala" :=
  ⟨by decide, by decide,
    finishRoom_non_host demoStore "t2" (1 / 2) ⟨2, "Bo", "t2", 1, 0⟩
      (by decide) (by decide)⟩

/-- C8 (as stated) fails: joining the finished demo room without a
displayName answers the validation error, not Sala já foi finalizada. -/
theorem joinRoom_finished_missing_name :
    findRoomByCode demoFinished "AB12" = some ⟨1, "AB12", "finished", some 2⟩ ∧
      (joinRoom demoFinished (some "AB12") none "t3").2
        = fail 400 "roomCode e displayName são obrigatórios" ∧
      (joinRoom demoFinished (some "AB12") none "t3").2
        ≠ fail 400 "Sala já foi finalizada" := by
  decide

/-- C8 (amended): when the roomCode is the code of a finished room, POST
/rooms/join answers 400 and creates no users row, whatever the displayName;
the error is Sala já foi finalizada when roomCode and displayName are both
non-empty, and the validation error otherwise. -/
theorem joinRoom_finished (s : Store) (roomCode : String) (displayName : Option String)
    (token : String) (room : Room)
    (hroom : findRoomByCode s roomCode = some room)
    (hfin : room.status = "finished") :
    (joinRoom s (some roomCode) displayName token).1 = s ∧
      (joinRoom s (some roomCode) displayName token).2 =
        if roomCode = "" ∨ falsy displayName = true then
          fail 400 "roomCode e displayName são obrigatórios"
        else fail 400 "Sala já foi finalizada" := by
  unfold joinRoom
  by_cases h : roomCode = "" ∨ falsy displayName = true
  · have h2 : (falsy (some roomCode) || falsy displayName) = true := by
      rcases h with h | h
      · simp [falsy, h]
      · simp [h]
    simp [h2, h]
  · have h2 : (falsy (some roomCode) || falsy displayName) = false := by
      simp only [not_or] at h
      have ha : falsy (some roomCode) = false := by simp [falsy, h.1]
      have hb : falsy displayName = false := by simpa using h.2
      simp [ha, hb]
    simp [h2, h, hroom, hfin]

/-- Witness for C8 (amended): Cy tries to join the finished demo room. -/
theorem joinRoom_finished_witness :
    findRoomByCode demoFinished "AB12" = some ⟨1, "AB12", "finished", some 2⟩ ∧
      (joinRoom demoFinished (some "AB12") (some "Cy") "t3").1 = demoFinished ∧
      (joinRoom demoFinished (some "AB12") (some "Cy") "t3").2 =
        if "AB12" = "" ∨ falsy (some "Cy") = true then
          fail 400 "roomCode e displayName são obrigatórios"
        else fail 400 "Sala já foi finalizada" :=
  ⟨by decide,
    joinRoom_finished demoFinished "AB12" (some "Cy") "t3"
      ⟨1, "AB12", "finished", some 2⟩ (by decide) rfl⟩

/-! ## Finishing a room: C1, C3 -/

/-- C1 (as stated) fails: a host who was issued the empty token resolves to a
host users row whose room is open and has a proposal, yet POST /rooms/finish
with that token answers the 400 validation error, not 200, and the room stays
open. -/
theorem finishRoom_empty_host_token :
    findUserByToken emptyHostTokenStore "" = some ⟨1, "Ana", "", 1, 1⟩ ∧
      findRoomById emptyHostTokenStore 1 = some ⟨1, "AB12", "open", none⟩ ∧
      moviesOfRoom emptyHostTokenStore 1 = [⟨1, "Dune", some 2021, 1, 2⟩] ∧
      finishRoom emptyHostTokenStore (some "") (1 / 2)
        = (emptyHostTokenStore, fail 400 "token é obrigatório") ∧
      (finishRoom emptyHostTokenStore (some "") (1 / 2)).2.status ≠ 200 := by
  decide

/-- C1 (amended): when a non-empty token resolves to a user with is_host 1
whose room is not finished and has at least one movie, and the draw r is a
binary64 value with 0 ≤ r < 1, the index Math.floor(r * movies.length), with
the product rounded to binary64 as the code computes it, is within bounds,
POST /rooms/finish answers 200 with the id, title and year of the movie at
that index, that movie is a movies row whose room_id is the id of the room,
and afterwards the room is finished with that id as its winner_movie_id. -/
theorem finishRoom_picks_among_proposals (s : Store) (token : String) (draw : ℚ)
    (u : User) (room : Room)
    (htoken : token ≠ "") (hu : findUserByToken s token = some u)
    (hhost : u.is_host = 1) (hroom : findRoomById s u.room_id = some room)
    (hopen : room.status ≠ "finished") (hmovies : moviesOfRoom s room.id ≠ [])
    (hdraw : IsBinary64 draw) (h0 : 0 ≤ draw) (h1 : draw < 1) :
    0 ≤ drawIndex draw (moviesOfRoom s room.id).length ∧
      drawIndex draw (moviesOfRoom s room.id).length
        < ((moviesOfRoom s room.id).length : Int) ∧
      ∃ w : Movie,
        elemAt (moviesOfRoom s room.id)
          (drawIndex draw (moviesOfRoom s room.id).length) = some w ∧
        w ∈ s.movies ∧ w.room_id = room.id ∧
        (finishRoom s (some token) draw).2
          = ⟨200, Body.finished "Sala finalizada!" w.id w.title w.year⟩ ∧
        findRoomById (finishRoom s (some token) draw).1 room.id
          = some { room with status := "finished", winner_movie_id := some w.id } := by
  have hlen : 0 < (moviesOfRoom s room.id).length := List.length_pos.mpr hmovies
  have hb := drawIndex_bounds draw _ hlen hdraw h0 h1
  obtain ⟨w, hw⟩ := elemAt_of_bounds _ _ hb.1 hb.2
  have hmem := moviesOfRoom_mem s room.id w (elemAt_mem _ _ _ hw)
  have hid := findRoomById_id s u.room_id room hroom
  refine ⟨hb.1, hb.2, w, hw, hmem.1, hmem.2, ?_, ?_⟩
  · rw [finishRoom_ok s token draw u room w htoken hu hhost hroom hopen hw]
    rfl
  · rw [finishRoom_ok s token draw u room w htoken hu hhost hroom hopen hw]
    apply findRoomById_setWinner_same
    rw [hid]
    exact hroom

/-- Witness for C1 (amended): Ana finishes her room of seven proposals with
the draw just below 4/7 whose binary64 product with 7 is 4. -/
theorem finishRoom_picks_among_proposals_witness :
    "t1" ≠ "" ∧ findUserByToken sevenStore "t1" = some demoHost ∧
      demoHost.is_host = 1 ∧ findRoomById sevenStore demoHost.room_id = some demoRoom ∧
      demoRoom.status ≠ "finished" ∧ moviesOfRoom sevenStore demoRoom.id ≠ [] ∧
      IsBinary64 tieDraw ∧ 0 ≤ tieDraw ∧ tieDraw < 1 ∧
      (0 ≤ drawIndex tieDraw (moviesOfRoom sevenStore demoRoom.id).length ∧
        drawIndex tieDraw (moviesOfRoom sevenStore demoRoom.id).length
          < ((moviesOfRoom sevenStore demoRoom.id).length : Int) ∧
        ∃ w : Movie,
          elemAt (moviesOfRoom sevenStore demoRoom.id)
            (drawIndex tieDraw (moviesOfRoom sevenStore demoRoom.id).length) = some w ∧
          w ∈ sevenStore.movies ∧ w.room_id = demoRoom.id ∧
          (finishRoom sevenStore (some "t1") tieDraw).2
            = ⟨200, Body.finished "Sala finalizada!" w.id w.title w.year⟩ ∧
          findRoomById (finishRoom sevenStore (some "t1") tieDraw).1 demoRoom.id
            = some { demoRoom with
                status := "finished", winner_movie_id := some w.id }) :=
  ⟨by decide, by decide, by decide, by decide, by decide, by decide,
    isBinary64_tie, by norm_num [tieDraw], by norm_num [tieDraw],
    finishRoom_picks_among_proposals sevenStore "t1" tieDraw demoHost demoRoom
      (by decide) (by decide) (by decide) (by decide) (by decide) (by decide)
      isBinary64_tie (by norm_num [tieDraw]) (by norm_num [tieDraw])⟩

/-! ## Creating a room: C4 -/

/-- C4 (as stated) fails: when the token drawn for a new host equals a token
issued earlier, POST /rooms succeeds and creates room 2, but the returned
token resolves to the earlier user, whose room is room 1. -/
theorem createRoom_repeated_token :
    (createRoom oneRoomStore (some "Eve") "CD34" "t1").2
        = ⟨200, Body.roomCreated "CD34" "Eve" "t1"⟩ ∧
      (createRoom oneRoomStore (some "Eve") "CD34" "t1").1.rooms
        = [⟨1, "AB12", "open", none⟩, ⟨2, "CD34", "open", none⟩] ∧
      findUserByToken (createRoom oneRoomStore (some "Eve") "CD34" "t1").1 "t1"
        = some ⟨1, "Ana", "t1", 1, 1⟩ ∧
      (1 : Nat) ≠ 2 := by
  decide

/-- C4 (amended): after a successful POST /rooms with a non-empty hostName,
provided no earlier users row carries the token that was drawn, the first
users row whose token equals the returned token is a user with is_host 1,
named hostName, whose room_id is the id of the room just created; that room
is the new last row of rooms, it is open and carries the returned code, and
it is the row found by that id. -/
theorem createRoom_host_credential (s : Store) (hostName roomCode token : String)
    (hname : hostName ≠ "")
    (hok : (createRoom s (some hostName) roomCode token).2.status = 200)
    (hfresh : findUserByToken s token = none) :
    (createRoom s (some hostName) roomCode token).2
        = ⟨200, Body.roomCreated roomCode hostName token⟩ ∧
      ∃ (u : User) (room : Room),
        findUserByToken (createRoom s (some hostName) roomCode token).1 token = some u ∧
        u.is_host = 1 ∧ u.name = hostName ∧ u.room_id = room.id ∧
        (createRoom s (some hostName) roomCode token).1.rooms = s.rooms ++ [room] ∧
        room.code = roomCode ∧ room.status = "open" ∧ room.winner_movie_id = none ∧
        findRoomById (createRoom s (some hostName) roomCode token).1 u.room_id
          = some room := by
  have _ := hname
  rcases createRoom_inv s (some hostName) roomCode token with h | h
  · exact absurd hok h.2
  · obtain ⟨name, hn, _, _, heq⟩ := h
    cases hn
    rw [heq]
    refine ⟨rfl, ⟨nextId s.userSeq (s.users.map User.id), hostName, token,
      nextId s.roomSeq (s.rooms.map Room.id), 1⟩,
      ⟨nextId s.roomSeq (s.rooms.map Room.id), roomCode, "open", none⟩,
      ?_, rfl, rfl, rfl, rfl, rfl, rfl, rfl, ?_⟩
    · unfold findUserByToken at *
      simp only
      rw [find?_append_none _ _ _ hfresh]
      simp
    · unfold findRoomById
      simp only
      have hnone : s.rooms.find?
          (fun r => r.id == nextId s.roomSeq (s.rooms.map Room.id)) = none := by
        rw [List.find?_eq_none]
        intro r hr
        have := lt_nextId s.roomSeq (s.rooms.map Room.id) r.id
          (List.mem_map_of_mem Room.id hr)
        simp
        omega
      rw [find?_append_none _ _ _ hnone]
      simp

/-- Witness for C4 (amended): Eve creates room CD34 with the new token t9. -/
theorem createRoom_host_credential_witness :
    "Eve" ≠ "" ∧ (createRoom oneRoomStore (some "Eve") "CD34" "t9").2.status = 200 ∧
      findUserByToken oneRoomStore "t9" = none ∧
      ((createRoom oneRoomStore (some "Eve") "CD34" "t9").2
          = ⟨200, Body.roomCreated "CD34" "Eve" "t9"⟩ ∧
        ∃ (u : User) (room : Room),
          findUserByToken (createRoom oneRoomStore (some "Eve") "CD34" "t9").1 "t9"
            = some u ∧
          u.is_host = 1 ∧ u.name = "Eve" ∧ u.room_id = room.id ∧
          (createRoom oneRoomStore (some "Eve") "CD34" "t9").1.rooms
            = oneRoomStore.rooms ++ [room] ∧
          room.code = "CD34" ∧ room.status = "open" ∧ room.winner_movie_id = none ∧
          findRoomById (createRoom oneRoomStore (some "Eve") "CD34" "t9").1 u.room_id
            = some room) :=
  ⟨by decide, by decide, by decide,
    createRoom_host_credential oneRoomStore "Eve" "CD34" "t9"
      (by decide) (by decide) (by decide)⟩

/-! ## Invariants of runs: C2, C3 -/

/-- C2: in every store state reachable from the empty store by create room,
join room, add movie and finish room requests, every room has
winner_movie_id set if and only if its status is finished, a winner that is
set is the id of a movies row whose room_id is the id of that room, and so a
finished room has at least one movie. -/
theorem room_winner_invariant (s : Store) (hreach : Reachable Store.empty s) :
    ∀ room ∈ s.rooms,
      (room.winner_movie_id ≠ none ↔ room.status = "finished") ∧
      (∀ w : Nat, room.winner_movie_id = some w →
        ∃ m ∈ s.movies, m.id = w ∧ m.room_id = room.id) ∧
      (room.status = "finished" → moviesOfRoom s room.id ≠ []) := by
  obtain ⟨reqs, hrun⟩ := hreach
  have hinv : WinnerInv s := by
    rw [← hrun]
    exact run_invariant WinnerInv winnerInv_handle Store.empty reqs winnerInv_empty
  intro room hroom
  refine ⟨(hinv room hroom).1, (hinv room hroom).2, ?_⟩
  intro hfin
  have hset := (hinv room hroom).1.mpr hfin
  obtain ⟨w, hw⟩ := Option.ne_none_iff_exists'.mp hset
  obtain ⟨m, hm, _, hmr⟩ := (hinv room hroom).2 w hw
  intro hnil
  have : m ∈ moviesOfRoom s room.id := by
    unfold moviesOfRoom
    simp [hm, hmr]
  rw [hnil] at this
  simp at this

/-- Witness for C2: the finished demo store is reached from the empty store by
the five requests of the scenario. -/
theorem room_winner_invariant_witness :
    Reachable Store.empty demoFinished ∧
      ∀ room ∈ demoFinished.rooms,
        (room.winner_movie_id ≠ none ↔ room.status = "finished") ∧
        (∀ w : Nat, room.winner_movie_id = some w →
          ∃ m ∈ demoFinished.movies, m.id = w ∧ m.room_id = room.id) ∧
        (room.status = "finished" → moviesOfRoom demoFinished room.id ≠ []) :=
  ⟨demoFinished_reachable, room_winner_invariant demoFinished demoFinished_reachable⟩

/-- C3: when POST /rooms/finish with a token succeeds, then in every state
reachable afterwards by further requests another POST /rooms/finish with the
same token, whatever the draw, is refused with 400 Sala já finalizada and
changes nothing, and the room of the token is still found finished with the
winner id that the first call returned. -/
theorem no_reroll (s : Store) (token : Option String) (draw : ℚ)
    (hok : (finishRoom s token draw).2.status = 200)
    (s2 : Store) (hreach : Reachable (finishRoom s token draw).1 s2) (draw2 : ℚ) :
    finishRoom s2 token draw2 = (s2, fail 400 "Sala já finalizada") ∧
      ∃ (u : User) (room room2 : Room) (w : Nat) (title : String) (year : Option Int),
        findUserByToken s (token.getD "") = some u ∧
        findRoomById s u.room_id = some room ∧
        (finishRoom s token draw).2 = ⟨200, Body.finished "Sala finalizada!" w title year⟩ ∧
        findUserByToken s2 (token.getD "") = some u ∧
        findRoomById s2 room.id = some room2 ∧
        room2.status = "finished" ∧ room2.winner_movie_id = some w := by
  rcases finishRoom_inv s token draw with h | ⟨tk, u, room, w, ht, htk, hu, hhost, hroom, _, _, heq⟩
  · exact absurd hok h.2
  · subst ht
    have hid := findRoomById_id s u.room_id room hroom
    have hseal1 : Sealed (finishRoom s (some tk) draw).1 tk u w.id := by
      rw [heq]
      refine ⟨hu, { room with status := "finished", winner_movie_id := some w.id },
        ?_, rfl, rfl⟩
      rw [← hid]
      apply findRoomById_setWinner_same
      rw [hid]
      exact hroom
    obtain ⟨reqs, hrun⟩ := hreach
    have hseal2 : Sealed s2 tk u w.id := by
      rw [← hrun]
      exact run_invariant (fun st => Sealed st tk u w.id) (sealed_handle tk u w.id) _ reqs hseal1
    refine ⟨sealed_finishRoom s2 tk u w.id draw2 htk hhost hseal2, ?_⟩
    obtain ⟨hu2, room2, hroom2, hfin2, hwin2⟩ := hseal2
    refine ⟨u, room, room2, w.id, w.title, w.year, hu, hroom, ?_, hu2, ?_, hfin2, hwin2⟩
    · rw [heq]
      rfl
    · rw [hid]
      exact hroom2

/-! ## The list returned by add movie: C9 -/

/-- C9: in a store that satisfies the schema constraints, a successful POST
/movies by the user u of the token, in the room R of u, returns the result of
the room query on the store after the insert.  That list is the result of the
same query before the insert followed by one new last entry, which carries the
requested title and year and the name of u as addedBy.  Its entries show, one
for one and in the same order, the movies rows whose room_id is the id of R
after the insert, each with the name of the one user who proposed it, and
their ids are strictly increasing. -/
theorem addMovie_returns_room_list (s : Store) (token title : Option String)
    (year : Option Int) (hwf : s.WF)
    (hok : (addMovie s token title year).2.status = 200) :
    ∃ (tok ttl : String) (u : User) (room : Room) (entry : MovieView),
      token = some tok ∧ title = some ttl ∧
      findUserByToken s tok = some u ∧ findRoomById s u.room_id = some room ∧
      (addMovie s token title year).2
        = ⟨200, Body.movies (movieViews s room.id ++ [entry])⟩ ∧
      movieViews (addMovie s token title year).1 room.id
        = movieViews s room.id ++ [entry] ∧
      entry.title = ttl ∧ entry.year = yearOrNull year ∧ entry.addedBy = u.name ∧
      moviesOfRoom (addMovie s token title year).1 room.id
        = moviesOfRoom s room.id ++ [⟨entry.id, ttl, yearOrNull year, room.id, u.id⟩] ∧
      List.Forall₂ (Shows (addMovie s token title year).1)
        (movieViews s room.id ++ [entry])
        (moviesOfRoom (addMovie s token title year).1 room.id) ∧
      ((movieViews s room.id ++ [entry]).map MovieView.id).Pairwise (· < ·) := by
  have hwf2 : (addMovie s token title year).1.WF :=
    wf_handle s (Request.addMovie token title year) hwf
  rcases addMovie_inv s token title year with
    h | ⟨tok, ttl, u, room, ht, _, htt, _, hu, hroom, _, heq, hresp⟩
  · exact absurd hok h.2
  · have hmem := findUserByToken_mem s tok u hu
    have hfu : s.users.filter (fun q => q.id == u.id) = [u] :=
      users_filter_unique s.users u hwf.2.1 hmem
    have hmovies : moviesOfRoom (addMovie s token title year).1 room.id
        = moviesOfRoom s room.id ++
          [⟨nextId s.movieSeq (s.movies.map Movie.id), ttl, yearOrNull year,
            room.id, u.id⟩] := by
      rw [heq]
      simp [moviesOfRoom, List.filter_append]
    have hviews : movieViews (addMovie s token title year).1 room.id
        = movieViews s room.id ++
          [⟨nextId s.movieSeq (s.movies.map Movie.id), ttl, yearOrNull year, u.name⟩] := by
      unfold movieViews
      rw [hmovies, List.flatMap_append, List.flatMap_singleton]
      have husers : (addMovie s token title year).1.users = s.users := by
        rw [heq]
      simp only [husers, hfu, List.map_cons, List.map_nil]
    have hshow : List.Forall₂ (Shows (addMovie s token title year).1)
        (movieViews (addMovie s token title year).1 room.id)
        (moviesOfRoom (addMovie s token title year).1 room.id) := by
      unfold movieViews
      apply views_show _ _ hwf2.2.1
      intro m hm
      exact (hwf2.2.2.2.2.2 m (moviesOfRoom_mem _ _ m hm).1).2
    refine ⟨tok, ttl, u, room,
      ⟨nextId s.movieSeq (s.movies.map Movie.id), ttl, yearOrNull year, u.name⟩,
      ht, htt, hu, hroom, ?_, hviews, rfl, rfl, rfl, hmovies, ?_, ?_⟩
    · rw [hresp, hviews]
      rfl
    · rw [← hviews]
      exact hshow
    · rw [← hviews, forall₂_shows_ids _ _ _ hshow]
      have hsub : List.Sublist
          ((moviesOfRoom (addMovie s token title year).1 room.id).map Movie.id)
          ((addMovie s token title year).1.movies.map Movie.id) :=
        List.Sublist.map _ (List.filter_sublist _)
      exact List.Pairwise.sublist hsub hwf2.2.2.1

/-- Witness for C9: Bo proposes Heat in the open demo room. -/
theorem addMovie_returns_room_list_witness :
    demoStore.WF ∧ (addMovie demoStore (some "t2") (some "Heat") (some 1995)).2.status = 200 ∧
      ∃ (tok ttl : String) (u : User) (room : Room) (entry : MovieView),
        some "t2" = some tok ∧ some "Heat" = some ttl ∧
        findUserByToken demoStore tok = some u ∧
        findRoomById demoStore u.room_id = some room ∧
        (addMovie demoStore (some "t2") (some "Heat") (some 1995)).2
          = ⟨200, Body.movies (movieViews demoStore room.id ++ [entry])⟩ ∧
        movieViews (addMovie demoStore (some "t2") (some "Heat") (some 1995)).1 room.id
          = movieViews demoStore room.id ++ [entry] ∧
        entry.title = ttl ∧ entry.year = yearOrNull (some 1995) ∧ entry.addedBy = u.name ∧
        moviesOfRoom (addMovie demoStore (some "t2") (some "Heat") (some 1995)).1 room.id
          = moviesOfRoom demoStore room.id ++
            [⟨entry.id, ttl, yearOrNull (some 1995), room.id, u.id⟩] ∧
        List.Forall₂ (Shows (addMovie demoStore (some "t2") (some "Heat") (some 1995)).1)
          (movieViews demoStore room.id ++ [entry])
          (moviesOfRoom (addMovie demoStore (some "t2") (some "Heat") (some 1995)).1
            room.id) ∧
        ((movieViews demoStore room.id ++ [entry]).map MovieView.id).Pairwise (· < ·) :=
  ⟨wf_reachable demoStore ⟨_, rfl⟩, by decide,
    addMovie_returns_room_list demoStore (some "t2") (some "Heat") (some 1995)
      (wf_reachable demoStore ⟨_, rfl⟩) (by decide)⟩

/-- Witness for C3: Ana finishes the demo room, Eve then creates another
room, and Ana tries to finish again. -/
theorem no_reroll_witness :
    (finishRoom demoStore (some "t1") (1 / 2)).2.status = 200 ∧
      Reachable (finishRoom demoStore (some "t1") (1 / 2)).1
        (run (finishRoom demoStore (some "t1") (1 / 2)).1
          [Request.createRoom (some "Eve") "CD34" "t9"]) ∧
      (finishRoom
          (run (finishRoom demoStore (some "t1") (1 / 2)).1
            [Request.createRoom (some "Eve") "CD34" "t9"])
          (some "t1") 0
        = (run (finishRoom demoStore (some "t1") (1 / 2)).1
            [Request.createRoom (some "Eve") "CD34" "t9"],
          fail 400 "Sala já finalizada") ∧
        ∃ (u : User) (room room2 : Room) (w : Nat) (title : String) (year : Option Int),
          findUserByToken demoStore ((some "t1").getD "") = some u ∧
          findRoomById demoStore u.room_id = some room ∧
          (finishRoom demoStore (some "t1") (1 / 2)).2
            = ⟨200, Body.finished "Sala finalizada!" w title year⟩ ∧
          findUserByToken
            (run (finishRoom demoStore (some "t1") (1 / 2)).1
              [Request.createRoom (some "Eve") "CD34" "t9"])
            ((some "t1").getD "") = some u ∧
          findRoomById
            (run (finishRoom demoStore (some "t1") (1 / 2)).1
              [Request.createRoom (some "Eve") "CD34" "t9"])
            room.id = some room2 ∧
          room2.status = "finished" ∧ room2.winner_movie_id = some w) :=
  ⟨by rw [demoFinish_eq],
    ⟨[Request.createRoom (some "Eve") "CD34" "t9"], rfl⟩,
    no_reroll demoStore (some "t1") (1 / 2) (by rw [demoFinish_eq])
      (run (finishRoom demoStore (some "t1") (1 / 2)).1
        [Request.createRoom (some "Eve") "CD34" "t9"])
      ⟨[Request.createRoom (some "Eve") "CD34" "t9"], rfl⟩ 0⟩

/-! ## The draw over entries: C10 -/

/-- C10 (as stated) fails: the binary64 draw 2573485501354569 / 2^52 lies in
the interval from 3/7 to 4/7, where the exact floor of 7 r is 3, yet the
binary64 product with 7 rounds up to 4, so for a room of seven proposals
finish room computes the index 4 and returns the fifth movie. -/
theorem tie_draw_selects_next_entry :
    IsBinary64 tieDraw ∧ (3 : ℚ) / 7 ≤ tieDraw ∧ tieDraw < 4 / 7 ∧
      ⌊tieDraw * 7⌋ = 3 ∧ drawIndex tieDraw 7 = 4 ∧
      (moviesOfRoom sevenStore 1).length = 7 ∧
      finishRoom sevenStore (some "t1") tieDraw =
        ({ sevenStore with rooms := setWinner sevenStore.rooms 1 5 },
          ⟨200, Body.finished "Sala finalizada!" 5 "M5" none⟩) := by
  refine ⟨isBinary64_tie, by norm_num [tieDraw], by norm_num [tieDraw], ?_,
    tieDraw_index, by decide, sevenStore_finish⟩
  rw [Int.floor_eq_iff]
  constructor <;> norm_num [tieDraw]

/-- C10 (amended): for a list of n proposals with n below 2^32 and a position
i below n, finish room selects the entry at position i for every draw r with
i/n ≤ r < (i+1)/(n(1+2^-53)), and only for draws with
i/(n(1+2^-53)) ≤ r < (i+1)/n, because the product r*n is rounded to binary64
before it is floored.  On those draws the handler selects the entry at
position i, at least one binary64 draw in [0, 1) selects it, and the two
intervals that bracket the selecting draws have lengths within 2^-53 of 1/n.
The draws on which an entry proposed by a given user is selected are the
union of the selecting draws of the positions that user proposed, and there
are k such positions when the user proposed k of the n entries. -/
theorem winner_drawn_over_entries (movies : List Movie) (i : Nat)
    (hi : i < movies.length) (hlen : movies.length < 2 ^ 32) (uid : Nat) :
    (∀ r : ℚ, IsBinary64 r → (i : ℚ) / movies.length ≤ r →
        r < ((i : ℚ) + 1) / ((movies.length : ℚ) * (1 + 1 / 2 ^ 53)) →
        r ∈ drawsFor movies.length i) ∧
      drawsFor movies.length i
        ⊆ Set.Ico ((i : ℚ) / ((movies.length : ℚ) * (1 + 1 / 2 ^ 53)))
            (((i : ℚ) + 1) / movies.length) ∧
      (∃ m : Movie, movies[i]? = some m ∧
        ∀ r ∈ drawsFor movies.length i,
          elemAt movies (drawIndex r movies.length) = some m) ∧
      (drawsFor movies.length i).Nonempty ∧
      (1 : ℚ) / movies.length - 1 / 2 ^ 53
        ≤ ((i : ℚ) + 1) / ((movies.length : ℚ) * (1 + 1 / 2 ^ 53))
            - (i : ℚ) / movies.length ∧
      ((i : ℚ) + 1) / movies.length
          - (i : ℚ) / ((movies.length : ℚ) * (1 + 1 / 2 ^ 53))
        ≤ (1 : ℚ) / movies.length + 1 / 2 ^ 53 ∧
      winningDraws movies uid
        = ⋃ j ∈ entriesOf movies uid, drawsFor movies.length j ∧
      (entriesOf movies uid).card = movies.countP (fun m => m.user_id == uid) := by
  have hn : 0 < movies.length := by omega
  have hnpos : (0 : ℚ) < (movies.length : ℚ) := by exact_mod_cast hn
  have hpos : (0 : ℚ) < (movies.length : ℚ) * (1 + 1 / 2 ^ 53) := by positivity
  have hin : (i : ℚ) + 1 ≤ (movies.length : ℚ) := by exact_mod_cast hi
  have hinner : ∀ r : ℚ, IsBinary64 r → (i : ℚ) / movies.length ≤ r →
      r < ((i : ℚ) + 1) / ((movies.length : ℚ) * (1 + 1 / 2 ^ 53)) →
      r ∈ drawsFor movies.length i := by
    intro r hb h1 h2
    have h0 : 0 ≤ r := le_trans (by positivity) h1
    have hle1 : ((i : ℚ) + 1) / ((movies.length : ℚ) * (1 + 1 / 2 ^ 53)) ≤ 1 := by
      rw [div_le_one hpos]
      have : (0 : ℚ) ≤ (movies.length : ℚ) * (1 / 2 ^ 53) := by positivity
      linarith
    exact ⟨hb, h0, lt_of_lt_of_le h2 hle1, drawIndex_eq_of_mem r _ i hlen hi h1 h2⟩
  refine ⟨hinner, ?_, ⟨movies[i], List.getElem?_eq_getElem hi, ?_⟩, ?_,
    inner_length_bound movies.length i hi, outer_length_bound movies.length i hi,
    winningDraws_eq_iUnion movies uid, card_entriesOf movies uid⟩
  · intro r hr
    obtain ⟨_, h0, h1, hd⟩ := hr
    have := mem_of_drawIndex_eq r movies.length i hn hlen h0 h1 hd
    exact ⟨this.1, this.2⟩
  · intro r hr
    rw [hr.2.2.2, elemAt_natCast]
    exact List.getElem?_eq_getElem hi
  · obtain ⟨r, hb, h1, h2, _, _⟩ := exists_draw movies.length i hlen hi
    exact ⟨r, hinner r hb h1 h2⟩

/-- Witness for C10 (amended): the two proposals of the demo room, position 1
and the user 1. -/
theorem winner_drawn_over_entries_witness :
    1 < demoStore.movies.length ∧ demoStore.movies.length < 2 ^ 32 ∧
      ((∀ r : ℚ, IsBinary64 r → ((1 : Nat) : ℚ) / demoStore.movies.length ≤ r →
          r < (((1 : Nat) : ℚ) + 1)
                / ((demoStore.movies.length : ℚ) * (1 + 1 / 2 ^ 53)) →
          r ∈ drawsFor demoStore.movies.length 1) ∧
        drawsFor demoStore.movies.length 1
          ⊆ Set.Ico (((1 : Nat) : ℚ) / ((demoStore.movies.length : ℚ) * (1 + 1 / 2 ^ 53)))
              ((((1 : Nat) : ℚ) + 1) / demoStore.movies.length) ∧
        (∃ m : Movie, demoStore.movies[1]? = some m ∧
          ∀ r ∈ drawsFor demoStore.movies.length 1,
            elemAt demoStore.movies (drawIndex r demoStore.movies.length) = some m) ∧
        (drawsFor demoStore.movies.length 1).Nonempty ∧
        (1 : ℚ) / demoStore.movies.length - 1 / 2 ^ 53
          ≤ (((1 : Nat) : ℚ) + 1) / ((demoStore.movies.length : ℚ) * (1 + 1 / 2 ^ 53))
              - ((1 : Nat) : ℚ) / demoStore.movies.length ∧
        (((1 : Nat) : ℚ) + 1) / demoStore.movies.length
            - ((1 : Nat) : ℚ) / ((demoStore.movies.length : ℚ) * (1 + 1 / 2 ^ 53))
          ≤ (1 : ℚ) / demoStore.movies.length + 1 / 2 ^ 53 ∧
        winningDraws demoStore.movies 1
          = ⋃ j ∈ entriesOf demoStore.movies 1, drawsFor demoStore.movies.length j ∧
        (entriesOf demoStore.movies 1).card
          = demoStore.movies.countP (fun m => m.user_id == 1)) :=
  ⟨by decide, by decide,
    winner_drawn_over_entries demoStore.movies 1 (by decide) (by decide) 1⟩

end MinerMovie
